import Mathlib

/-!
Verification development for the EventBridge-rules DLQ reconciler
(`src/lambda/main.py`).

The source is a single-pass, single-threaded reconciler over one event bus.
We shallowly embed its core functions over an explicit `AwsState` that models
the collaborators (EventBridge rule/target registry, SQS queue service):

* Python dict-shaped targets become `Target` (Id, Arn, DeadLetterConfig.Arn,
  and the bag of remaining opaque fields as a key/value list).
* SQS is a list of `Queue`s keyed by name.  The collaborator derives queue
  URLs and ARNs deterministically from the queue name
  (`https://sqs...../<name>`, `arn:aws:sqs:<region>:<acct>:<name>`), and the
  source only ever recovers the name back out of them
  (`url.split("/")[-1]`, `arn.split(":")[-1]`); we model the URL by the queue
  name itself and the ARN by `mkQueueArn`.
* boto3 calls that mutate state (create_queue, set_queue_attributes on the
  policy, put_targets, list_queues, delete_queue) are recorded in a trace so
  that "no collaborator call was attempted" claims are statable.  Collaborator
  failures (`ClientError`) on `delete_queue` are modelled by the oracle
  `failingDeletes`; all read paths are modelled as succeeding.
* Python truthiness on strings ("" is falsy) and negative-slice semantics are
  reproduced exactly (`pySliceTo`).
-/

namespace Dlq

/-- Python `s[:n]` including the negative-index case: a negative `n` keeps all
but the last `-n` characters (clamped at the empty string). -/
def pySliceTo (s : String) (n : Int) : String :=
  if 0 ≤ n then s.take n.toNat else s.take (s.length - n.natAbs)

/-- Python `s.split(c)` for a single-character separator. -/
def pySplit (c : Char) (s : String) : List String :=
  (s.toList.splitOn c).map (fun cs => String.mk cs)

/-- Python `s.split(c)[-1]`: the substring after the last occurrence of `c`
(the whole string when `c` does not occur). -/
def lastTok (c : Char) (s : String) : String :=
  String.mk ((s.toList.reverse.takeWhile (fun a => a != c)).reverse)

/-- Python `needle in hay` substring containment. -/
def pyContains (hay needle : String) : Bool :=
  decide (needle.toList <:+: hay.toList)

/-- Python `s.count("-")` for the single-character pattern. -/
def hyphenCount (s : String) : Nat :=
  (s.toList.filter (fun c => c == '-')).length

/-- Source `generate_dlq_name` (main.py lines 36-56), including the Python
slice applied when the computed available length is negative. -/
def generate_dlq_name (rule_name : String) (envPrefix : String) : String :=
  let suffixStr := "-rule-dlq"
  if envPrefix != "" then
    let prefixWithDash := envPrefix ++ "-"
    let maxRuleLen : Int := 80 - (prefixWithDash.length : Int) - (suffixStr.length : Int)
    let rn := if (rule_name.length : Int) > maxRuleLen then pySliceTo rule_name maxRuleLen
              else rule_name
    prefixWithDash ++ rn ++ suffixStr
  else
    let maxRuleLen : Int := 80 - (suffixStr.length : Int)
    let rn := if (rule_name.length : Int) > maxRuleLen then pySliceTo rule_name maxRuleLen
              else rule_name
    rn ++ suffixStr

/-- Source `get_rule_arn` (main.py lines 28-33).  Bus ARNs always have at
least six colon-separated segments, so the `getD` defaults are never used on
well-formed input. -/
def get_rule_arn (rule_name : String) (busArn : String) : String :=
  let parts := pySplit ':' busArn
  let region := parts.getD 3 ""
  let accountId := parts.getD 4 ""
  let busName := lastTok '/' busArn
  "arn:aws:events:" ++ region ++ ":" ++ accountId ++ ":rule/" ++ busName ++ "/" ++ rule_name

/-- Collaborator model: the SQS ARN of a queue is determined by the account,
region and queue name. -/
def mkQueueArn (name : String) : String :=
  "arn:aws:sqs:eu-west-1:123456789012:" ++ name

/-- One statement of an SQS access-policy document, restricted to the JSON
keys the source reads or writes (`st.get("Principal", {}).get("Service")`,
`st.get("Action")`, `st.get("Condition", {}).get("ArnEquals", {}).get("aws:SourceArn")`,
plus Sid/Effect/Resource which it only writes). -/
structure Statement where
  sid : Option String
  effect : Option String
  principalService : Option String
  action : Option String
  resource : Option String
  condSourceArn : Option String
deriving DecidableEq

/-- An SQS queue as the source observes it: name (also standing for the URL),
creation attributes and tags, the parsed policy document (absence of a policy
and an unparsable policy both behave as the empty statement list, exactly as
in `update_queue_policy`), and the approximate message counters. -/
structure Queue where
  name : String
  attributes : List (String × String)
  tags : List (String × String)
  policy : List Statement
  visibleMsgs : Nat
  inflightMsgs : Nat
deriving DecidableEq

/-- An EventBridge target: Id, Arn, the optional `DeadLetterConfig.Arn`
(`none` models both an absent DeadLetterConfig and one without an Arn), and
the remaining type-specific fields as an opaque key/value bag. -/
structure Target where
  tid : String
  arn : String
  deadLetter : Option String
  extra : List (String × String)
deriving DecidableEq

/-- An EventBridge rule with its targets; `managedBy = ""` models an absent
`ManagedBy` attribute. -/
structure Rule where
  name : String
  managedBy : String
  targets : List Target
deriving DecidableEq

/-- Collaborator calls that the dry-run contract forbids: every mutating SQS
or put-targets call plus the queue listing.  Read-only calls (list_rules,
list_targets, get_queue_url, get_queue_attributes) are not traced. -/
inductive TraceCall where
  | createQueue (name : String)
  | setQueuePolicy (name : String)
  | putTargets (ruleName : String)
  | listQueues
  | deleteQueue (name : String)
deriving DecidableEq

/-- The world state one invocation operates on: the rules of the single bus,
the SQS queues, the `ClientError` oracle for `delete_queue`, and the call
trace. -/
structure AwsState where
  rules : List Rule
  queues : List Queue
  failingDeletes : List String
  trace : List TraceCall
deriving DecidableEq

/-- The queue-attribute settings record (main.py handler lines 498-503). -/
structure Settings where
  message_retention_seconds : Nat
  visibility_timeout_seconds : Nat
  max_message_size : Nat
  sse_enabled : Bool
deriving DecidableEq

/-- Python `managed_by and "aws" in managed_by.lower()`. -/
def isAwsManaged (managedBy : String) : Bool :=
  managedBy != "" && pyContains managedBy.toLower "aws"

/-- SQS lookup by queue name (the first queue with that name). -/
def findQueue (s : AwsState) (name : String) : Option Queue :=
  s.queues.find? (fun q => q.name == name)

/-- Source `get_queue_by_name` (main.py lines 89-97): `(url, arn)` on success,
`none` modelling the NonExistentQueue `ClientError` translated to
`(None, None)`. -/
def get_queue_by_name (s : AwsState) (name : String) : Option (String × String) :=
  (findQueue s name).map (fun q => (q.name, mkQueueArn q.name))

/-- Source `list_targets` (main.py lines 74-86): all targets of the named rule
on the bus (pagination assembled by the collaborator model). -/
def list_targets (s : AwsState) (ruleName : String) : List Target :=
  ((s.rules.find? (fun r => r.name == ruleName)).map Rule.targets).getD []

/-- Collaborator `SQS.create_queue`: a fresh queue with the given attributes
and tags, no policy, and zero messages. -/
def create_queue (s : AwsState) (name : String)
    (attrs tagList : List (String × String)) : AwsState :=
  { s with
    queues := s.queues ++
      [{ name := name
         attributes := attrs
         tags := tagList
         policy := []
         visibleMsgs := 0
         inflightMsgs := 0 }],
    trace := s.trace ++ [TraceCall.createQueue name] }

/-- Collaborator `SQS.set_queue_attributes` on the Policy attribute. -/
def setQueuePolicy (s : AwsState) (name : String) (pol : List Statement) : AwsState :=
  { s with
    queues := s.queues.map (fun q => if q.name == name then { q with policy := pol } else q),
    trace := s.trace ++ [TraceCall.setQueuePolicy name] }

/-- Collaborator `SQS.delete_queue`.  The Bool reports success; a name in the
`failingDeletes` oracle raises `ClientError` (call attempted and traced, queue
kept). -/
def delete_queue (s : AwsState) (name : String) : Bool × AwsState :=
  if name ∈ s.failingDeletes then
    (false, { s with trace := s.trace ++ [TraceCall.deleteQueue name] })
  else
    (true, { s with
      queues := s.queues.filter (fun q => q.name != name),
      trace := s.trace ++ [TraceCall.deleteQueue name] })

/-- Upsert of one target by Id, the `EVENTS.put_targets` semantics: replace
the targets with a matching Id, else append. -/
def upsertTarget (ts : List Target) (u : Target) : List Target :=
  if ts.any (fun t => t.tid == u.tid) then
    ts.map (fun t => if t.tid == u.tid then u else t)
  else ts ++ [u]

/-- Collaborator `EVENTS.put_targets`: batch-upsert the given targets on the
named rule. -/
def put_targets (s : AwsState) (ruleName : String) (ts : List Target) : AwsState :=
  { s with
    rules := s.rules.map (fun r =>
      if r.name == ruleName then { r with targets := ts.foldl upsertTarget r.targets } else r),
    trace := s.trace ++ [TraceCall.putTargets ruleName] }

/-- One entry of the `list_all_dlq_queues` result (name, extracted rule name);
the URL field of the source is recovered from the name. -/
structure DlqEntry where
  name : String
  rule_name : String
deriving DecidableEq

/-- The suffix-scan of `list_all_dlq_queues` (main.py lines 113-118):
`for i in range(len(parts) - 2): if parts[i] == "rule" and parts[i+1] == "dlq"`,
returning the first such index. -/
def findRuleDlqIndex (parts : List String) : Option Nat :=
  (List.range (parts.length - 2)).find?
    (fun i => parts.getD i "" == "rule" && parts.getD (i + 1) "" == "dlq")

/-- The name-parsing performed per queue by `list_all_dlq_queues` (main.py
lines 108-126): substring gate, hyphen-count gate, suffix scan, and the
`parts[1:rule_dlq_index]` rejoin; `none` when the queue is not recognised. -/
def parseDlqName (queueName : String) : Option String :=
  if pyContains queueName "-rule-dlq" then
    if 3 ≤ hyphenCount queueName then
      let parts := pySplit '-' queueName
      match findRuleDlqIndex parts with
      | some i =>
          if 0 < i then some (String.intercalate "-" ((parts.take i).drop 1))
          else none
      | none => none
    else none
  else none

/-- One queue's treatment by `list_all_dlq_queues`: the entry recorded when
the name parses, `none` otherwise. -/
def dlqEntryOfQueue (q : Queue) : Option DlqEntry :=
  (parseDlqName q.name).map (fun rn => { name := q.name, rule_name := rn })

/-- Source `list_all_dlq_queues` (main.py lines 100-129) over the collaborator
queue listing. -/
def list_all_dlq_queues (s : AwsState) : List DlqEntry :=
  s.queues.filterMap dlqEntryOfQueue

/-- Source `rule_has_dlq_attached` (main.py lines 132-146): some target has a
non-empty DeadLetterConfig Arn whose queue (name = `arn.split(":")[-1]`)
still exists. -/
def rule_has_dlq_attached (s : AwsState) (ruleName : String) : Bool :=
  (list_targets s ruleName).any (fun t =>
    match t.deadLetter with
    | some a => a != "" && (get_queue_by_name s (lastTok ':' a)).isSome
    | none => false)

/-- The Bool-returning triple test of `update_queue_policy` (main.py lines
238-241): principal service, action, and source-ARN condition all match. -/
def statementMatches (st : Statement) (ruleArn : String) : Bool :=
  st.principalService == some "events.amazonaws.com" &&
  st.action == some "sqs:SendMessage" &&
  st.condSourceArn == some ruleArn

/-- The desired statement built by `update_queue_policy` (main.py lines
215-222). -/
def desiredStatement (queueArn ruleArn : String) : Statement :=
  { sid := some ("AllowEventBridgeSend-" ++ lastTok '/' ruleArn)
    effect := some "Allow"
    principalService := some "events.amazonaws.com"
    action := some "sqs:SendMessage"
    resource := some queueArn
    condSourceArn := some ruleArn }

/-- Source `update_queue_policy` (main.py lines 212-250).  A missing queue
makes the final `set_queue_attributes` raise, which the outer handler turns
into `False` with no write, hence the `none` branch. -/
def update_queue_policy (s : AwsState) (queueUrl queueArn ruleArn : String) :
    Bool × AwsState :=
  match findQueue s queueUrl with
  | none => (false, s)
  | some q =>
      if q.policy.any (fun st => statementMatches st ruleArn) then (false, s)
      else (true, setQueuePolicy s queueUrl (q.policy ++ [desiredStatement queueArn ruleArn]))

/-- The fixed allow-list of target fields copied by the clone loops (main.py
lines 268-270 and 438-440). -/
def allowedTargetKeys : List String :=
  ["RoleArn", "Input", "InputPath", "InputTransformer", "KinesisParameters",
   "RunCommandParameters", "EcsParameters", "BatchParameters", "SqsParameters",
   "HttpParameters", "RedshiftDataParameters", "RetryPolicy"]

/-- The skip test of `attach_dlq_to_targets` (main.py lines 260-264): empty or
sentinel Arn, archive destination, or an already-present DLQ reference. -/
def attachSkip (t : Target) : Bool :=
  t.arn == "" || t.arn == "arn:aws:events:::" || pyContains t.arn ":archive/" ||
  (match t.deadLetter with
   | some a => a != ""
   | none => false)

/-- The clone built by `attach_dlq_to_targets` (main.py lines 266-273): Id,
Arn, the allow-listed extra fields, and the DLQ reference set. -/
def cloneWithDlq (t : Target) (queueArn : String) : Target :=
  { tid := t.tid
    arn := t.arn
    deadLetter := some queueArn
    extra := t.extra.filter (fun kv => allowedTargetKeys.contains kv.1) }

/-- The clone built by the teardown detach loop (main.py lines 437-442): same
allow-list, DLQ reference removed. -/
def cloneWithoutDlq (t : Target) : Target :=
  { tid := t.tid
    arn := t.arn
    deadLetter := none
    extra := t.extra.filter (fun kv => allowedTargetKeys.contains kv.1) }

/-- Source `attach_dlq_to_targets` (main.py lines 253-281): clone every
eligible target with the DLQ attached and batch-publish them; returns the
number of modified targets. -/
def attach_dlq_to_targets (s : AwsState) (ruleName : String) (queueArn : String) :
    Nat × AwsState :=
  let targets := list_targets s ruleName
  let toUpdate := (targets.filter (fun t => !attachSkip t)).map (fun t => cloneWithDlq t queueArn)
  if toUpdate.isEmpty then (0, s)
  else (toUpdate.length, put_targets s ruleName toUpdate)

/-- The attribute dictionary passed to `create_queue` (main.py lines 180-185). -/
def queueAttributes (settings : Settings) : List (String × String) :=
  [("MessageRetentionPeriod", toString settings.message_retention_seconds),
   ("VisibilityTimeout", toString settings.visibility_timeout_seconds),
   ("MaximumMessageSize", toString settings.max_message_size),
   ("SqsManagedSseEnabled", if settings.sse_enabled then "true" else "false")]

/-- The per-rule operation record (main.py lines 152-160). -/
structure RuleOp where
  rule_name : String
  dlq_name : String
  queue_created : Bool
  policy_updated : Bool
  targets_updated : Nat
  status : String
  reason : String
deriving DecidableEq

/-- Source `ensure_queue_and_policy` (main.py lines 149-209): dry-run
simulation, the `dlq_exists` short-circuit, find-or-create, policy merge,
target attachment, and the updated/no_change classification. -/
def ensure_queue_and_policy (s : AwsState) (ruleName dlqName : String)
    (tagList : List (String × String)) (settings : Settings)
    (eventBusArn : String) (dryRun : Bool) : RuleOp × AwsState :=
  let base : RuleOp :=
    { rule_name := ruleName
      dlq_name := dlqName
      queue_created := false
      policy_updated := false
      targets_updated := 0
      status := "skipped"
      reason := "" }
  if dryRun then
    ({ base with
        queue_created := true
        policy_updated := true
        targets_updated := 1
        status := "would_create" }, s)
  else if rule_has_dlq_attached s ruleName then
    ({ base with status := "skipped", reason := "dlq_exists" }, s)
  else
    let found := get_queue_by_name s dlqName
    let created := found.isNone
    let s1 := if found.isNone then create_queue s dlqName (queueAttributes settings) tagList
              else s
    let qUrl := match found with
      | some p => p.1
      | none => dlqName
    let qArn := match found with
      | some p => p.2
      | none => mkQueueArn dlqName
    let ruleArn := get_rule_arn ruleName eventBusArn
    let pol := update_queue_policy s1 qUrl qArn ruleArn
    let att := attach_dlq_to_targets pol.2 ruleName qArn
    ({ base with
        queue_created := created
        policy_updated := pol.1
        targets_updated := att.1
        status := if created || 0 < att.1 then "updated" else "no_change" }, att.2)

/-- One entry of the orphan-cleanup report (main.py lines 307-311). -/
structure OrphanEntry where
  queue_name : String
  rule_name : String
  action : String
deriving DecidableEq

/-- The orphan-cleanup result record (main.py line 286). -/
structure CleanupResult where
  orphaned_queues : List OrphanEntry
  deleted_count : Nat
deriving DecidableEq

/-- The live non-managed rule names collected at main.py lines 294-297. -/
def liveRuleNames (rules : List Rule) : List String :=
  (rules.filter (fun r => !isAwsManaged r.managedBy)).map Rule.name

/-- One iteration of the orphan-cleanup loop (main.py lines 302-321), in the
non-dry-run branch: the report entry (action "deleted", since dry_run is
false here) is appended before the delete call is attempted; a failing delete
keeps the entry but does not increment the counter. -/
def orphanStep (ruleNames : List String) (acc : CleanupResult × AwsState)
    (q : DlqEntry) : CleanupResult × AwsState :=
  if q.rule_name ∈ ruleNames then acc
  else
    ({ orphaned_queues := acc.1.orphaned_queues ++
         [{ queue_name := q.name, rule_name := q.rule_name, action := "deleted" }]
       deleted_count := if (delete_queue acc.2 q.name).1 then acc.1.deleted_count + 1
                        else acc.1.deleted_count },
     (delete_queue acc.2 q.name).2)

/-- Source `cleanup_orphaned_dlqs` (main.py lines 284-323).  In dry-run mode
it returns the empty result without any collaborator call; otherwise it lists
the recognised DLQ queues once and processes them in order. -/
def cleanup_orphaned_dlqs (s : AwsState) (rules : List Rule) (dryRun : Bool) :
    CleanupResult × AwsState :=
  if dryRun then ({ orphaned_queues := [], deleted_count := 0 }, s)
  else
    let ruleNames := liveRuleNames rules
    let dlqQueues := list_all_dlq_queues s
    dlqQueues.foldl (orphanStep ruleNames)
      ({ orphaned_queues := [], deleted_count := 0 },
       { s with trace := s.trace ++ [TraceCall.listQueues] })

/-- The reconcile summary record (main.py lines 370-378). -/
structure ReconcileSummary where
  queues_created : Nat
  policies_updated : Nat
  targets_attached : Nat
  rules_total : Nat
  rules_skipped : Nat
  operations : List RuleOp
  orphaned_cleanup : CleanupResult
deriving DecidableEq

/-- The accumulator threaded through the per-rule loop of `reconcile_bus`. -/
structure PassAcc where
  state : AwsState
  created : Nat
  policies : Nat
  attached : Nat
  skipped : Nat
  operations : List RuleOp
deriving DecidableEq

/-- One iteration of the `reconcile_bus` rule loop (main.py lines 341-365):
skip AWS-managed and explicitly configured rules, else run
`ensure_queue_and_policy` and aggregate its counters. -/
def reconcileStep (eventBusArn : String) (tagList : List (String × String))
    (settings : Settings) (dryRun : Bool) (envPrefix : String)
    (skipRules : List String) (acc : PassAcc) (rule : Rule) : PassAcc :=
  if isAwsManaged rule.managedBy then { acc with skipped := acc.skipped + 1 }
  else if rule.name ∈ skipRules then { acc with skipped := acc.skipped + 1 }
  else
    let dlqName := generate_dlq_name rule.name envPrefix
    let pr := ensure_queue_and_policy acc.state rule.name dlqName tagList settings
      eventBusArn dryRun
    { state := pr.2
      created := acc.created + (if pr.1.queue_created then 1 else 0)
      policies := acc.policies + (if pr.1.policy_updated then 1 else 0)
      attached := if 0 < pr.1.targets_updated then acc.attached + pr.1.targets_updated
                  else acc.attached
      skipped := acc.skipped
      operations := acc.operations ++ [pr.1] }

/-- Source `reconcile_bus` (main.py lines 326-381): one pass over the bus's
rules followed by orphan cleanup over the rule list captured at the start. -/
def reconcile_bus (s : AwsState) (eventBusArn : String)
    (tagList : List (String × String)) (settings : Settings) (dryRun : Bool)
    (envPrefix : String) (skipRules : List String) : ReconcileSummary × AwsState :=
  let rules := s.rules
  let acc := rules.foldl (reconcileStep eventBusArn tagList settings dryRun envPrefix skipRules)
    { state := s, created := 0, policies := 0, attached := 0, skipped := 0, operations := [] }
  let orphan := cleanup_orphaned_dlqs acc.state rules dryRun
  ({ queues_created := acc.created
     policies_updated := acc.policies
     targets_attached := acc.attached
     rules_total := rules.length
     rules_skipped := acc.skipped
     operations := acc.operations
     orphaned_cleanup := orphan.1 }, orphan.2)

/-- One entry of the teardown action log (main.py lines 412 and 450). -/
structure DeletedEntry where
  rule_name : String
  dlq_name : String
  action : String
deriving DecidableEq

/-- The teardown summary record (main.py lines 457-461). -/
structure TeardownSummary where
  deleted_count : Nat
  deleted_queues : List DeletedEntry
  rules_processed : Nat
deriving DecidableEq

/-- The accumulator of the teardown loop. -/
structure TearAcc where
  state : AwsState
  deleted_queues : List DeletedEntry
  deleted_count : Nat
deriving DecidableEq

/-- The detach-and-delete tail of the `cleanup_all_dlqs` rule loop (main.py
lines 432-455): rewrite every target referencing the DLQ with the
dead-letter field removed, batch-publish when any, delete the queue, and on
success log the action and bump the counter — a failing delete logs nothing
and leaves the counter alone. -/
def teardownProceed (envPrefix : String) (acc : TearAcc) (rule : Rule) : TearAcc :=
  let dlqName := generate_dlq_name rule.name envPrefix
  let qArn := mkQueueArn dlqName
  let toUpdate := ((list_targets acc.state rule.name).filter
    (fun t => t.deadLetter == some qArn)).map cloneWithoutDlq
  let s1 := if toUpdate.isEmpty then acc.state
            else put_targets acc.state rule.name toUpdate
  if (delete_queue s1 dlqName).1 then
    { state := (delete_queue s1 dlqName).2
      deleted_queues := acc.deleted_queues ++
        [{ rule_name := rule.name, dlq_name := dlqName, action := "deleted" }]
      deleted_count := acc.deleted_count + 1 }
  else { acc with state := (delete_queue s1 dlqName).2 }

/-- One iteration of the `cleanup_all_dlqs` rule loop (main.py lines
395-455): skip managed/configured rules; in dry-run record `would_delete`
for an existing queue; otherwise apply the message-count guard (unless
forced) and run the detach-and-delete tail. -/
def teardownStep (dryRun forceDelete : Bool) (envPrefix : String)
    (skipRules : List String) (acc : TearAcc) (rule : Rule) : TearAcc :=
  if isAwsManaged rule.managedBy then acc
  else if rule.name ∈ skipRules then acc
  else
    let dlqName := generate_dlq_name rule.name envPrefix
    if dryRun then
      match findQueue acc.state dlqName with
      | some _ =>
          { acc with deleted_queues := acc.deleted_queues ++
            [{ rule_name := rule.name, dlq_name := dlqName, action := "would_delete" }] }
      | none => acc
    else
      match findQueue acc.state dlqName with
      | none => acc
      | some q =>
          if !forceDelete && 0 < q.visibleMsgs + q.inflightMsgs then acc
          else teardownProceed envPrefix acc rule

/-- Source `cleanup_all_dlqs` (main.py lines 384-464). -/
def cleanup_all_dlqs (s : AwsState) (dryRun forceDelete : Bool)
    (envPrefix : String) (skipRules : List String) : TeardownSummary × AwsState :=
  let rules := s.rules
  let acc := rules.foldl (teardownStep dryRun forceDelete envPrefix skipRules)
    { state := s, deleted_queues := [], deleted_count := 0 }
  ({ deleted_count := acc.deleted_count
     deleted_queues := acc.deleted_queues
     rules_processed := (rules.filter (fun r => !isAwsManaged r.managedBy)).length },
   acc.state)

/-! Claim-support definitions. -/

/-- The (principal service, action, source-ARN condition) triple of a policy
statement — the key of the anti-duplication invariant. -/
def tripleOf (st : Statement) : Option String × Option String × Option String :=
  (st.principalService, st.action, st.condSourceArn)

/-- No two statements of a policy share the (principal, action, source-ARN
condition) triple. -/
def NoDupTriples (pol : List Statement) : Prop :=
  pol.Pairwise (fun a b => tripleOf a ≠ tripleOf b)

/-- Repeated invocation of `update_queue_policy` with fixed arguments. -/
def iterPolicy (s : AwsState) (queueUrl queueArn ruleArn : String) : Nat → AwsState
  | 0 => s
  | n + 1 => iterPolicy (update_queue_policy s queueUrl queueArn ruleArn).2
      queueUrl queueArn ruleArn n

/-- The provisioned configuration a reconcile pass leaves behind for a rule:
some target of the rule references the derived queue's ARN as its DLQ, and
the queue exists. -/
def AttachedInv (s : AwsState) (ruleName dlqName : String) : Prop :=
  (∃ t ∈ list_targets s ruleName, t.deadLetter = some (mkQueueArn dlqName)) ∧
  (findQueue s dlqName).isSome = true

/-- Full provisioning of a per-rule operation, as in the idempotence claim:
queue created, policy authorised, at least one target attached.  The queue
name contains no colon (SQS queue names never do; the reconciler recovers
names from ARNs by splitting on colons). -/
def FullyProvisioned (op : RuleOp) : Prop :=
  op.queue_created = true ∧ op.policy_updated = true ∧ 0 < op.targets_updated ∧
  ':' ∉ op.dlq_name.data

/-- The per-rule operation an idempotent second pass must report. -/
def SkipGood (op : RuleOp) : Prop :=
  op.queue_created = false ∧ op.policy_updated = false ∧ op.targets_updated = 0 ∧
  op.status = "skipped" ∧ op.reason = "dlq_exists"

/-! Concrete fixtures used by witnesses and counterexamples. -/

/-- A bus ARN fixture. -/
def sampleBusArn : String := "arn:aws:events:eu-west-1:123456789012:event-bus/main"

/-- A settings fixture. -/
def sampleSettings : Settings :=
  { message_retention_seconds := 60
    visibility_timeout_seconds := 30
    max_message_size := 1024
    sse_enabled := true }

/-- A plain lambda target without a DLQ. -/
def sampleTarget : Target :=
  { tid := "t1", arn := "arn:aws:lambda:eu-west-1:123456789012:function:f",
    deadLetter := none, extra := [] }

/-- A healthy one-rule bus with no queues. -/
def ordersState : AwsState :=
  { rules := [{ name := "orders", managedBy := "", targets := [sampleTarget] }],
    queues := [], failingDeletes := [], trace := [] }

/-- A one-rule bus whose rule name itself contains consecutive rule,dlq
hyphen segments — the input that breaks reconcile idempotence. -/
def cexState : AwsState :=
  { rules := [{ name := "x-rule-dlq-y", managedBy := "", targets := [sampleTarget] }],
    queues := [], failingDeletes := [], trace := [] }

/-- A rule ARN fixture. -/
def sampleRuleArn : String := "arn:aws:events:eu-west-1:123456789012:rule/main/orders"

/-- A queue whose policy already carries two identical statements. -/
def dupPolicyState : AwsState :=
  { rules := []
    queues := [{ name := "q1", attributes := [], tags := []
                 policy := [desiredStatement (mkQueueArn "q1") sampleRuleArn,
                            desiredStatement (mkQueueArn "q1") sampleRuleArn]
                 visibleMsgs := 0, inflightMsgs := 0 }]
    failingDeletes := [], trace := [] }

/-- A queue with an empty policy. -/
def cleanPolicyState : AwsState :=
  { rules := []
    queues := [{ name := "q1", attributes := [], tags := [], policy := []
                 visibleMsgs := 0, inflightMsgs := 0 }]
    failingDeletes := [], trace := [] }

/-- A bus where the queue `p-x-rule-dlq-y-rule-dlq` parses to the live rule
name `x`. -/
def liveParseState : AwsState :=
  { rules := [{ name := "x", managedBy := "", targets := [] }]
    queues := [{ name := "p-x-rule-dlq-y-rule-dlq", attributes := [], tags := []
                 policy := [], visibleMsgs := 0, inflightMsgs := 0 }]
    failingDeletes := [], trace := [] }

/-- A bus whose rule's queue still holds three visible messages. -/
def busyQueue : Queue :=
  { name := "prod-orders-rule-dlq", attributes := [], tags := [], policy := []
    visibleMsgs := 3, inflightMsgs := 0 }

/-- State for the delete-safety witness. -/
def busyState : AwsState :=
  { rules := [{ name := "orders", managedBy := "", targets := [sampleTarget] }]
    queues := [busyQueue], failingDeletes := [], trace := [] }

/-- A target carrying a field outside the clone allow-list. -/
def sageTarget : Target :=
  { tid := "t1", arn := "arn:aws:lambda:eu-west-1:123456789012:function:f",
    deadLetter := none, extra := [("SageMakerPipelineParameters", "pipe")] }

/-- State for the frame-condition counterexample. -/
def sageState : AwsState :=
  { rules := [{ name := "orders", managedBy := "", targets := [sageTarget] }],
    queues := [], failingDeletes := [], trace := [] }

/-- A standard-form queue name sitting in an otherwise empty account. -/
def standardQueueState : AwsState :=
  { rules := []
    queues := [{ name := "prod-orders-rule-dlq", attributes := [], tags := []
                 policy := [], visibleMsgs := 0, inflightMsgs := 0 }]
    failingDeletes := [], trace := [] }

/-- Two orphan-parseable queues where deleting the second raises. -/
def failingOrphanState : AwsState :=
  { rules := []
    queues := [{ name := "p-a-rule-dlq-x", attributes := [], tags := []
                 policy := [], visibleMsgs := 0, inflightMsgs := 0 },
               { name := "p-b-rule-dlq-x", attributes := [], tags := []
                 policy := [], visibleMsgs := 0, inflightMsgs := 0 }]
    failingDeletes := ["p-b-rule-dlq-x"], trace := [] }

/-! Utility lemmas. -/

/-- Fold invariant principle restricted to the elements of the folded list. -/
theorem foldl_rec {α β : Type} (f : β → α → β) (P : β → Prop) (l : List α)
    (hstep : ∀ b a, a ∈ l → P b → P (f b a)) (b : β) (hb : P b) : P (l.foldl f b) := by
  induction l generalizing b with
  | nil => exact hb
  | cons a tl ih =>
      exact ih (fun b' a' ha' hb' => hstep b' a' (List.mem_cons_of_mem _ ha') hb') _
        (hstep b a (List.mem_cons_self _ _) hb)

/-- takeWhile passes over a block that satisfies the predicate. -/
theorem takeWhile_append_all {p : Char → Bool} {l₁ l₂ : List Char}
    (h : ∀ a ∈ l₁, p a = true) :
    (l₁ ++ l₂).takeWhile p = l₁ ++ l₂.takeWhile p := by
  induction l₁ with
  | nil => simp
  | cons a tl ih =>
      rw [List.cons_append, List.takeWhile_cons, h a (List.mem_cons_self _ _),
        ih (fun x hx => h x (List.mem_cons_of_mem _ hx)), List.cons_append, if_pos rfl]

/-- Splitting a collaborator queue ARN on colons recovers the queue name when
the name itself contains no colon. -/
theorem lastTok_mkQueueArn (d : String) (h : ':' ∉ d.data) :
    lastTok ':' (mkQueueArn d) = d := by
  obtain ⟨l⟩ := d
  have hl : ∀ a ∈ l.reverse, (a != ':') = true := by
    intro a ha
    simp only [List.mem_reverse] at ha
    simp only [bne_iff_ne, ne_eq]
    intro hc
    exact h (hc ▸ ha)
  show String.mk _ = _
  rw [show (mkQueueArn ⟨l⟩).toList
      = ("arn:aws:sqs:eu-west-1:123456789012:".toList ++ l) from rfl]
  rw [List.reverse_append, takeWhile_append_all hl]
  rw [show List.takeWhile (fun a => a != ':') "arn:aws:sqs:eu-west-1:123456789012:".toList.reverse
      = [] from by decide]
  simp

/-- A collaborator queue ARN is never the empty string. -/
theorem mkQueueArn_ne_empty (d : String) : (mkQueueArn d != "") = true := by
  simp only [bne_iff_ne, ne_eq]
  intro h
  have h2 : ("arn:aws:sqs:eu-west-1:123456789012:").data ++ d.data = [] :=
    congrArg String.data h
  exact absurd (List.append_eq_nil.mp h2).1 (by decide)

/-! Lemmas about the collaborator primitives. -/

/-- Queue existence survives an append of new queues. -/
theorem findQueue_create_of_isSome {s : AwsState} {m : String}
    (h : (findQueue s m).isSome = true) (n : String)
    (attrs tagList : List (String × String)) :
    (findQueue (create_queue s n attrs tagList) m).isSome = true := by
  simp only [findQueue, create_queue] at *
  rw [List.find?_append]
  cases hf : s.queues.find? (fun q => q.name == m) with
  | none => rw [hf] at h; simp at h
  | some q => simp [Option.or]

/-- A just-created queue is found. -/
theorem findQueue_create_self (s : AwsState) (n : String)
    (attrs tagList : List (String × String)) :
    (findQueue (create_queue s n attrs tagList) n).isSome = true := by
  simp only [findQueue, create_queue]
  rw [List.find?_append]
  cases hf : s.queues.find? (fun q => q.name == n) with
  | none => simp [Option.or, List.find?]
  | some q => simp [Option.or]

/-- Queue existence is unchanged by a policy write. -/
theorem findQueue_setPolicy (s : AwsState) (n : String) (pol : List Statement)
    (m : String) :
    (findQueue (setQueuePolicy s n pol) m).isSome = (findQueue s m).isSome := by
  simp only [findQueue, setQueuePolicy]
  rw [List.find?_map]
  have hcomp : ((fun q : Queue => q.name == m) ∘
      (fun q => if q.name == n then { q with policy := pol } else q))
      = fun q : Queue => q.name == m := by
    funext q
    by_cases h : (q.name == n) = true <;> simp [Function.comp, h]
  rw [hcomp]
  cases s.queues.find? (fun q => q.name == m) <;> rfl

/-- Queue existence is unchanged by `update_queue_policy`. -/
theorem findQueue_updatePolicy (s : AwsState) (u a r m : String) :
    (findQueue (update_queue_policy s u a r).2 m).isSome = (findQueue s m).isSome := by
  unfold update_queue_policy
  cases hf : findQueue s u with
  | none => rfl
  | some q =>
      by_cases hp : q.policy.any (fun st => statementMatches st r) = true
      · simp [hp]
      · simp only [Bool.not_eq_true] at hp
        simp [hp, findQueue_setPolicy]

/-- put_targets does not touch the queues. -/
theorem findQueue_put_targets (s : AwsState) (rn : String) (ts : List Target)
    (m : String) : findQueue (put_targets s rn ts) m = findQueue s m := rfl

/-- Queues are unchanged by `attach_dlq_to_targets`. -/
theorem findQueue_attach (s : AwsState) (rn qa m : String) :
    (findQueue (attach_dlq_to_targets s rn qa).2 m) = findQueue s m := by
  simp only [attach_dlq_to_targets]
  split
  · rfl
  · rfl

/-- Targets are unchanged by queue creation. -/
theorem list_targets_create (s : AwsState) (n : String)
    (attrs tagList : List (String × String)) (rn : String) :
    list_targets (create_queue s n attrs tagList) rn = list_targets s rn := rfl

/-- Targets are unchanged by a policy write. -/
theorem list_targets_setPolicy (s : AwsState) (n : String) (pol : List Statement)
    (rn : String) : list_targets (setQueuePolicy s n pol) rn = list_targets s rn := rfl

/-- Targets are unchanged by `update_queue_policy`. -/
theorem list_targets_updatePolicy (s : AwsState) (u a r rn : String) :
    list_targets (update_queue_policy s u a r).2 rn = list_targets s rn := by
  unfold update_queue_policy
  cases hf : findQueue s u with
  | none => rfl
  | some q =>
      by_cases hp : q.policy.any (fun st => statementMatches st r) = true
      · simp [hp]
      · simp only [Bool.not_eq_true] at hp
        simp [hp, list_targets_setPolicy]

/-- put_targets on one rule leaves every other rule's targets alone. -/
theorem list_targets_put_ne (s : AwsState) (oname : String) (ts : List Target)
    (rn : String) (h : oname ≠ rn) :
    list_targets (put_targets s oname ts) rn = list_targets s rn := by
  simp only [list_targets, put_targets]
  rw [List.find?_map]
  have hcomp : ((fun r : Rule => r.name == rn) ∘
      (fun r => if r.name == oname then
        { r with targets := ts.foldl upsertTarget r.targets } else r))
      = fun r : Rule => r.name == rn := by
    funext r
    by_cases hb : (r.name == oname) = true <;> simp [Function.comp, hb]
  rw [hcomp]
  cases hf : s.rules.find? (fun r => r.name == rn) with
  | none => rfl
  | some r0 =>
      have hr0 : r0.name = rn := by simpa using List.find?_some hf
      have hne : r0.name ≠ oname := by
        rw [hr0]
        exact fun hh => h hh.symm
      simp [hne]

/-- put_targets on a rule that exists rewrites exactly its target list. -/
theorem list_targets_put_found (s : AwsState) (rn : String) (ts : List Target)
    (r0 : Rule) (h : s.rules.find? (fun r => r.name == rn) = some r0) :
    list_targets (put_targets s rn ts) rn = ts.foldl upsertTarget r0.targets := by
  simp only [list_targets, put_targets]
  rw [List.find?_map]
  have hcomp : ((fun r : Rule => r.name == rn) ∘
      (fun r => if r.name == rn then
        { r with targets := ts.foldl upsertTarget r.targets } else r))
      = fun r : Rule => r.name == rn := by
    funext r
    by_cases hb : (r.name == rn) = true <;> simp [Function.comp, hb]
  rw [hcomp, h]
  have hr0 : r0.name = rn := by simpa using List.find?_some h
  simp [hr0]

/-- An upserted target is a member of the result. -/
theorem mem_upsertTarget_self (ts : List Target) (u : Target) :
    u ∈ upsertTarget ts u := by
  unfold upsertTarget
  by_cases h : ts.any (fun t => t.tid == u.tid) = true
  · rw [if_pos h]
    obtain ⟨t0, ht0, hid⟩ := List.any_eq_true.mp h
    exact List.mem_map.mpr ⟨t0, ht0, by rw [if_pos hid]⟩
  · rw [if_neg h]
    exact List.mem_append_right _ (List.mem_singleton.mpr rfl)

/-- After upserting a non-empty batch that all satisfy `P`, some member of
the result satisfies `P`. -/
theorem exists_foldl_upsert (P : Target → Prop) (us : List Target)
    (hus : us ≠ []) (hall : ∀ u ∈ us, P u) (ts : List Target) :
    ∃ t ∈ us.foldl upsertTarget ts, P t := by
  induction us generalizing ts with
  | nil => exact absurd rfl hus
  | cons u rest ih =>
      rw [List.foldl_cons]
      cases hrest : rest with
      | nil =>
          subst hrest
          rw [List.foldl_nil]
          exact ⟨u, mem_upsertTarget_self ts u, hall u (List.mem_cons_self _ _)⟩
      | cons v tl =>
          subst hrest
          exact ih (by simp) (fun x hx => hall x (List.mem_cons_of_mem _ hx)) _

/-! Lemmas about the provisioned-configuration invariant. -/

/-- A provisioned rule passes the `rule_has_dlq_attached` check. -/
theorem attachedInv_hasDlq (s : AwsState) (ruleName dlqName : String)
    (hc : ':' ∉ dlqName.data) (h : AttachedInv s ruleName dlqName) :
    rule_has_dlq_attached s ruleName = true := by
  obtain ⟨⟨t, ht, hdl⟩, hq⟩ := h
  unfold rule_has_dlq_attached
  rw [List.any_eq_true]
  refine ⟨t, ht, ?_⟩
  rw [hdl]
  show (mkQueueArn dlqName != "" &&
    (get_queue_by_name s (lastTok ':' (mkQueueArn dlqName))).isSome) = true
  rw [lastTok_mkQueueArn _ hc, mkQueueArn_ne_empty]
  simp only [Bool.true_and]
  unfold get_queue_by_name
  rw [Option.isSome_map']
  exact hq

/-- The invariant survives queue creation. -/
theorem attachedInv_create (s : AwsState) (n : String)
    (attrs tagList : List (String × String)) (rn dn : String)
    (h : AttachedInv s rn dn) : AttachedInv (create_queue s n attrs tagList) rn dn :=
  ⟨by rw [list_targets_create]; exact h.1, findQueue_create_of_isSome h.2 n attrs tagList⟩

/-- The invariant survives a policy merge. -/
theorem attachedInv_updatePolicy (s : AwsState) (u a r : String) (rn dn : String)
    (h : AttachedInv s rn dn) : AttachedInv (update_queue_policy s u a r).2 rn dn :=
  ⟨by rw [list_targets_updatePolicy]; exact h.1,
   by rw [findQueue_updatePolicy]; exact h.2⟩

/-- Attaching a DLQ to a different rule's targets leaves this rule's targets
alone. -/
theorem list_targets_attach_ne (s : AwsState) (oname qa rn : String)
    (hne : oname ≠ rn) :
    list_targets (attach_dlq_to_targets s oname qa).2 rn = list_targets s rn := by
  simp only [attach_dlq_to_targets]
  split
  · rfl
  · exact list_targets_put_ne s oname _ rn hne

/-- The invariant survives target attachment on a different rule. -/
theorem attachedInv_attach (s : AwsState) (oname qa : String) (rn dn : String)
    (hne : oname ≠ rn) (h : AttachedInv s rn dn) :
    AttachedInv (attach_dlq_to_targets s oname qa).2 rn dn :=
  ⟨by rw [list_targets_attach_ne s oname qa rn hne]; exact h.1,
   by rw [findQueue_attach]; exact h.2⟩

/-- A rule that already has a live DLQ is reported skipped with reason
dlq_exists, and the state is untouched. -/
theorem ensure_skips (s : AwsState) (ruleName dlqName : String)
    (tagList : List (String × String)) (settings : Settings) (busArn : String)
    (h : rule_has_dlq_attached s ruleName = true) :
    ensure_queue_and_policy s ruleName dlqName tagList settings busArn false =
    ({ rule_name := ruleName
       dlq_name := dlqName
       queue_created := false
       policy_updated := false
       targets_updated := 0
       status := "skipped"
       reason := "dlq_exists" }, s) := by
  simp [ensure_queue_and_policy, h]

/-- Dry-run simulation: fixed would_create outcome, state untouched. -/
theorem ensure_dry (s : AwsState) (ruleName dlqName : String)
    (tagList : List (String × String)) (settings : Settings) (busArn : String) :
    ensure_queue_and_policy s ruleName dlqName tagList settings busArn true =
    ({ rule_name := ruleName
       dlq_name := dlqName
       queue_created := true
       policy_updated := true
       targets_updated := 1
       status := "would_create"
       reason := "" }, s) := by
  simp [ensure_queue_and_policy]

/-- The invariant survives an `ensure_queue_and_policy` call for any rule. -/
theorem attachedInv_ensure (s : AwsState) (ruleName dlqName : String)
    (tagList : List (String × String)) (settings : Settings) (busArn : String)
    (rn dn : String) (hc : ':' ∉ dn.data) (h : AttachedInv s rn dn) :
    AttachedInv (ensure_queue_and_policy s ruleName dlqName tagList settings busArn false).2
      rn dn := by
  by_cases hH : rule_has_dlq_attached s ruleName = true
  · rw [ensure_skips _ _ _ _ _ _ hH]
    exact h
  · have hne : ruleName ≠ rn := fun e => hH (e ▸ attachedInv_hasDlq s rn dn hc h)
    have hHf : rule_has_dlq_attached s ruleName = false := by simpa using hH
    cases hfound : get_queue_by_name s dlqName with
    | none =>
        simp only [ensure_queue_and_policy, hHf, hfound, Bool.false_eq_true, if_false,
          Option.isNone_none, if_true]
        exact attachedInv_attach _ _ _ _ _ hne
          (attachedInv_updatePolicy _ _ _ _ _ _ (attachedInv_create _ _ _ _ _ _ h))
    | some p =>
        simp only [ensure_queue_and_policy, hHf, hfound, Bool.false_eq_true, if_false,
          Option.isNone_some, Bool.false_eq_true]
        exact attachedInv_attach _ _ _ _ _ hne (attachedInv_updatePolicy _ _ _ _ _ _ h)

/-- When the attachment batch is non-empty, the attach call establishes the
invariant for its own rule. -/
theorem attachedInv_attach_self (s : AwsState) (ruleName dlqName : String)
    (hq : (findQueue s dlqName).isSome = true)
    (htg : 0 < (attach_dlq_to_targets s ruleName (mkQueueArn dlqName)).1) :
    AttachedInv (attach_dlq_to_targets s ruleName (mkQueueArn dlqName)).2
      ruleName dlqName := by
  by_cases hemp : (((list_targets s ruleName).filter (fun t => !attachSkip t)).map
      (fun t => cloneWithDlq t (mkQueueArn dlqName))).isEmpty = true
  · exact absurd htg (by simp [attach_dlq_to_targets, hemp])
  · have h2 : (attach_dlq_to_targets s ruleName (mkQueueArn dlqName)).2
        = put_targets s ruleName
          (((list_targets s ruleName).filter (fun t => !attachSkip t)).map
            (fun t => cloneWithDlq t (mkQueueArn dlqName))) := by
      simp [attach_dlq_to_targets, hemp]
    rw [h2]
    have hnil : (((list_targets s ruleName).filter (fun t => !attachSkip t)).map
        (fun t => cloneWithDlq t (mkQueueArn dlqName))) ≠ [] := by
      intro hh
      exact hemp (by rw [hh]; rfl)
    cases hf : s.rules.find? (fun r => r.name == ruleName) with
    | none =>
        exfalso
        apply hnil
        have : list_targets s ruleName = [] := by simp [list_targets, hf]
        rw [this]
        rfl
    | some r0 =>
        constructor
        · rw [list_targets_put_found s ruleName _ r0 hf]
          apply exists_foldl_upsert (fun t => t.deadLetter = some (mkQueueArn dlqName)) _ hnil
          intro u hu
          obtain ⟨t, _, hclone⟩ := List.mem_map.mp hu
          rw [← hclone]
          rfl
        · rw [findQueue_put_targets]
          exact hq

/-- A non-dry `ensure_queue_and_policy` call that created the queue and
attached at least one target establishes the invariant for its rule. -/
theorem attachedInv_establish (s : AwsState) (ruleName dlqName : String)
    (tagList : List (String × String)) (settings : Settings) (busArn : String)
    (hcr : (ensure_queue_and_policy s ruleName dlqName tagList settings busArn
      false).1.queue_created = true)
    (htg : 0 < (ensure_queue_and_policy s ruleName dlqName tagList settings busArn
      false).1.targets_updated) :
    AttachedInv (ensure_queue_and_policy s ruleName dlqName tagList settings busArn false).2
      ruleName dlqName := by
  by_cases hH : rule_has_dlq_attached s ruleName = true
  · rw [ensure_skips _ _ _ _ _ _ hH] at hcr
    simp at hcr
  · have hHf : rule_has_dlq_attached s ruleName = false := by simpa using hH
    cases hfound : get_queue_by_name s dlqName with
    | some p =>
        rw [show (ensure_queue_and_policy s ruleName dlqName tagList settings busArn
            false).1.queue_created = (get_queue_by_name s dlqName).isNone from by
          simp [ensure_queue_and_policy, hHf]] at hcr
        rw [hfound] at hcr
        simp at hcr
    | none =>
        have h2 : (ensure_queue_and_policy s ruleName dlqName tagList settings busArn false).2
            = (attach_dlq_to_targets
                (update_queue_policy
                  (create_queue s dlqName (queueAttributes settings) tagList)
                  dlqName (mkQueueArn dlqName) (get_rule_arn ruleName busArn)).2
                ruleName (mkQueueArn dlqName)).2 := by
          simp [ensure_queue_and_policy, hHf, hfound]
        have h1 : (ensure_queue_and_policy s ruleName dlqName tagList settings busArn
            false).1.targets_updated
            = (attach_dlq_to_targets
                (update_queue_policy
                  (create_queue s dlqName (queueAttributes settings) tagList)
                  dlqName (mkQueueArn dlqName) (get_rule_arn ruleName busArn)).2
                ruleName (mkQueueArn dlqName)).1 := by
          simp [ensure_queue_and_policy, hHf, hfound]
        rw [h2]
        rw [h1] at htg
        apply attachedInv_attach_self _ _ _ _ htg
        rw [findQueue_updatePolicy]
        exact findQueue_create_self s dlqName (queueAttributes settings) tagList

/-- The operation record names the rule and queue it was called for. -/
theorem ensure_names (s : AwsState) (ruleName dlqName : String)
    (tagList : List (String × String)) (settings : Settings) (busArn : String)
    (dryRun : Bool) :
    (ensure_queue_and_policy s ruleName dlqName tagList settings busArn dryRun).1.rule_name
      = ruleName ∧
    (ensure_queue_and_policy s ruleName dlqName tagList settings busArn dryRun).1.dlq_name
      = dlqName := by
  unfold ensure_queue_and_policy
  split
  · exact ⟨rfl, rfl⟩
  · split
    · exact ⟨rfl, rfl⟩
    · exact ⟨rfl, rfl⟩

/-! Pass-level lemmas for reconcile idempotence. -/

/-- A non-dry reconcile step keeps every already-provisioned operation's
configuration in place. -/
theorem passInv_step (busArn : String) (tagList : List (String × String))
    (settings : Settings) (envPrefix : String) (skipRules : List String)
    (acc : PassAcc) (r : Rule)
    (h : ∀ op ∈ acc.operations, FullyProvisioned op →
      AttachedInv acc.state op.rule_name op.dlq_name) :
    ∀ op ∈ (reconcileStep busArn tagList settings false envPrefix skipRules acc r).operations,
      FullyProvisioned op →
      AttachedInv (reconcileStep busArn tagList settings false envPrefix skipRules acc r).state
        op.rule_name op.dlq_name := by
  unfold reconcileStep
  by_cases hm : isAwsManaged r.managedBy = true
  · rw [if_pos hm]
    exact h
  · rw [if_neg hm]
    by_cases hs : r.name ∈ skipRules
    · rw [if_pos hs]
      exact h
    · rw [if_neg hs]
      intro op hop hfp
      rcases List.mem_append.mp hop with hold | hnew
      · exact attachedInv_ensure _ _ _ _ _ _ _ _ hfp.2.2.2 (h op hold hfp)
      · have hop2 : op = (ensure_queue_and_policy acc.state r.name
            (generate_dlq_name r.name envPrefix) tagList settings busArn false).1 :=
          List.mem_singleton.mp hnew
        have hnm := ensure_names acc.state r.name (generate_dlq_name r.name envPrefix)
          tagList settings busArn false
        rw [hop2, hnm.1, hnm.2]
        exact attachedInv_establish _ _ _ _ _ _ (hop2 ▸ hfp.1) (hop2 ▸ hfp.2.2.1)

/-- Orphan cleanup never touches the rules. -/
theorem cleanup_rules_eq (s : AwsState) (rules : List Rule) (dryRun : Bool) :
    (cleanup_orphaned_dlqs s rules dryRun).2.rules = s.rules := by
  unfold cleanup_orphaned_dlqs
  split
  · rfl
  · apply foldl_rec (orphanStep (liveRuleNames rules))
      (fun acc : CleanupResult × AwsState => acc.2.rules = s.rules)
    · intro b a _ hb
      unfold orphanStep
      split
      · exact hb
      · unfold delete_queue
        split
        · exact hb
        · exact hb
    · rfl

/-- list_targets only depends on the rules component. -/
theorem list_targets_of_rules_eq (s1 s2 : AwsState) (h : s1.rules = s2.rules)
    (rn : String) : list_targets s1 rn = list_targets s2 rn := by
  unfold list_targets
  rw [h]

/-- A second-pass reconcile step over a provisioned rule emits only
skipped/dlq_exists operations for it and preserves the configuration. -/
theorem pass2_step (busArn : String) (tagList : List (String × String))
    (settings : Settings) (envPrefix : String) (skipRules : List String)
    (rn dn : String) (hc : ':' ∉ dn.data) (acc : PassAcc) (r : Rule)
    (h1 : AttachedInv acc.state rn dn)
    (h2 : ∀ op ∈ acc.operations, op.rule_name = rn → SkipGood op) :
    AttachedInv (reconcileStep busArn tagList settings false envPrefix skipRules acc r).state
      rn dn ∧
    ∀ op ∈ (reconcileStep busArn tagList settings false envPrefix skipRules acc r).operations,
      op.rule_name = rn → SkipGood op := by
  unfold reconcileStep
  by_cases hm : isAwsManaged r.managedBy = true
  · rw [if_pos hm]
    exact ⟨h1, h2⟩
  · rw [if_neg hm]
    by_cases hs : r.name ∈ skipRules
    · rw [if_pos hs]
      exact ⟨h1, h2⟩
    · rw [if_neg hs]
      constructor
      · exact attachedInv_ensure _ _ _ _ _ _ _ _ hc h1
      · intro op hop hrn
        rcases List.mem_append.mp hop with hold | hnew
        · exact h2 op hold hrn
        · have hop2 : op = (ensure_queue_and_policy acc.state r.name
              (generate_dlq_name r.name envPrefix) tagList settings busArn false).1 :=
            List.mem_singleton.mp hnew
          have hnm := ensure_names acc.state r.name (generate_dlq_name r.name envPrefix)
            tagList settings busArn false
          have hrname : r.name = rn := by rw [hop2, hnm.1] at hrn; exact hrn
          have hsk := ensure_skips acc.state r.name (generate_dlq_name r.name envPrefix)
            tagList settings busArn (by rw [hrname]; exact attachedInv_hasDlq _ _ _ hc h1)
          rw [hop2, hsk]
          exact ⟨rfl, rfl, rfl, rfl, rfl⟩

/-- put_targets preserves every rule's name and managed-by marker. -/
theorem rules_sig_put (s : AwsState) (rn : String) (ts : List Target) :
    (put_targets s rn ts).rules.map (fun r => (r.name, r.managedBy))
      = s.rules.map (fun r => (r.name, r.managedBy)) := by
  simp only [put_targets, List.map_map]
  apply List.map_congr_left
  intro r _
  show (fun r => (r.name, r.managedBy)) (if r.name == rn then _ else r) = _
  split <;> rfl

/-- update_queue_policy never touches the rules. -/
theorem rules_updatePolicy (s : AwsState) (u a r : String) :
    (update_queue_policy s u a r).2.rules = s.rules := by
  unfold update_queue_policy
  cases hf : findQueue s u with
  | none => rfl
  | some q =>
      split
      · rfl
      · split
        · rfl
        · rfl

/-- attach_dlq_to_targets preserves every rule's name and managed-by marker. -/
theorem rules_sig_attach (s : AwsState) (rn qa : String) :
    ((attach_dlq_to_targets s rn qa).2.rules.map (fun r => (r.name, r.managedBy)))
      = s.rules.map (fun r => (r.name, r.managedBy)) := by
  simp only [attach_dlq_to_targets]
  split
  · rfl
  · exact rules_sig_put s rn _

/-- ensure_queue_and_policy preserves every rule's name and managed-by
marker. -/
theorem rules_sig_ensure (s : AwsState) (ruleName dlqName : String)
    (tagList : List (String × String)) (settings : Settings) (busArn : String)
    (dryRun : Bool) :
    ((ensure_queue_and_policy s ruleName dlqName tagList settings busArn dryRun).2.rules.map
      (fun r => (r.name, r.managedBy)))
      = s.rules.map (fun r => (r.name, r.managedBy)) := by
  cases dryRun with
  | true => rw [ensure_dry]
  | false =>
      by_cases hH : rule_has_dlq_attached s ruleName = true
      · rw [ensure_skips _ _ _ _ _ _ hH]
      · have hHf : rule_has_dlq_attached s ruleName = false := by simpa using hH
        cases hfound : get_queue_by_name s dlqName with
        | none =>
            have h2 : (ensure_queue_and_policy s ruleName dlqName tagList settings busArn
                false).2
                = (attach_dlq_to_targets
                    (update_queue_policy
                      (create_queue s dlqName (queueAttributes settings) tagList)
                      dlqName (mkQueueArn dlqName) (get_rule_arn ruleName busArn)).2
                    ruleName (mkQueueArn dlqName)).2 := by
              simp [ensure_queue_and_policy, hHf, hfound]
            rw [h2, rules_sig_attach, rules_updatePolicy]
            rfl
        | some p =>
            have h2 : (ensure_queue_and_policy s ruleName dlqName tagList settings busArn
                false).2
                = (attach_dlq_to_targets
                    (update_queue_policy s p.1 p.2 (get_rule_arn ruleName busArn)).2
                    ruleName p.2).2 := by
              simp [ensure_queue_and_policy, hHf, hfound]
            rw [h2, rules_sig_attach, rules_updatePolicy]

/-- A reconcile step preserves every rule's name and managed-by marker. -/
theorem rules_sig_step (busArn : String) (tagList : List (String × String))
    (settings : Settings) (dryRun : Bool) (envPrefix : String)
    (skipRules : List String) (acc : PassAcc) (r : Rule) :
    ((reconcileStep busArn tagList settings dryRun envPrefix skipRules acc r).state.rules.map
      (fun r => (r.name, r.managedBy)))
      = acc.state.rules.map (fun r => (r.name, r.managedBy)) := by
  unfold reconcileStep
  by_cases hm : isAwsManaged r.managedBy = true
  · rw [if_pos hm]
  · rw [if_neg hm]
    by_cases hs : r.name ∈ skipRules
    · rw [if_pos hs]
    · rw [if_neg hs]
      exact rules_sig_ensure _ _ _ _ _ _ _

/-- Operations already recorded are kept by later steps. -/
theorem step_ops_mono (busArn : String) (tagList : List (String × String))
    (settings : Settings) (dryRun : Bool) (envPrefix : String)
    (skipRules : List String) (acc : PassAcc) (r : Rule) (op : RuleOp)
    (h : op ∈ acc.operations) :
    op ∈ (reconcileStep busArn tagList settings dryRun envPrefix skipRules acc r).operations := by
  unfold reconcileStep
  by_cases hm : isAwsManaged r.managedBy = true
  · rw [if_pos hm]; exact h
  · rw [if_neg hm]
    by_cases hs : r.name ∈ skipRules
    · rw [if_pos hs]; exact h
    · rw [if_neg hs]; exact List.mem_append_left _ h

/-- Operations already recorded are kept by the rest of the pass. -/
theorem fold_ops_mono (busArn : String) (tagList : List (String × String))
    (settings : Settings) (dryRun : Bool) (envPrefix : String)
    (skipRules : List String) (l : List Rule) (acc : PassAcc) (op : RuleOp)
    (h : op ∈ acc.operations) :
    op ∈ (l.foldl (reconcileStep busArn tagList settings dryRun envPrefix skipRules)
      acc).operations :=
  foldl_rec _ (fun b => op ∈ b.operations) l
    (fun b a _ hb => step_ops_mono busArn tagList settings dryRun envPrefix skipRules b a op hb)
    acc h

/-- Every non-managed, non-skipped rule of the pass gets an operation record
bearing its name and derived queue name. -/
theorem fold_emits (busArn : String) (tagList : List (String × String))
    (settings : Settings) (dryRun : Bool) (envPrefix : String)
    (skipRules : List String) (l : List Rule) (acc : PassAcc) (r : Rule)
    (hr : r ∈ l) (hm : ¬ isAwsManaged r.managedBy = true) (hs : r.name ∉ skipRules) :
    ∃ op ∈ (l.foldl (reconcileStep busArn tagList settings dryRun envPrefix skipRules)
        acc).operations,
      op.rule_name = r.name ∧ op.dlq_name = generate_dlq_name r.name envPrefix := by
  induction l generalizing acc with
  | nil => cases hr
  | cons a tl ih =>
      rw [List.foldl_cons]
      rcases List.mem_cons.mp hr with heq | htl
      · subst heq
        have hnm := ensure_names acc.state r.name (generate_dlq_name r.name envPrefix)
          tagList settings busArn dryRun
        refine ⟨(ensure_queue_and_policy acc.state r.name (generate_dlq_name r.name envPrefix)
          tagList settings busArn dryRun).1, ?_, hnm.1, hnm.2⟩
        apply fold_ops_mono
        unfold reconcileStep
        rw [if_neg hm, if_neg hs]
        exact List.mem_append_right _ (List.mem_singleton.mpr rfl)
      · exact ih _ htl

/-- Every recorded operation of a pass comes from a non-managed, non-skipped
rule of the pass. -/
theorem fold_ops_provenance (busArn : String) (tagList : List (String × String))
    (settings : Settings) (dryRun : Bool) (envPrefix : String)
    (skipRules : List String) (l : List Rule) (acc : PassAcc) :
    ∀ op ∈ (l.foldl (reconcileStep busArn tagList settings dryRun envPrefix skipRules)
        acc).operations,
      op ∈ acc.operations ∨
      ∃ r ∈ l, op.rule_name = r.name ∧ ¬ isAwsManaged r.managedBy = true ∧
        r.name ∉ skipRules := by
  induction l generalizing acc with
  | nil => exact fun op hop => Or.inl hop
  | cons a tl ih =>
      intro op hop
      rw [List.foldl_cons] at hop
      rcases ih _ op hop with hacc | ⟨r, hrtl, hprops⟩
      · unfold reconcileStep at hacc
        by_cases hm : isAwsManaged a.managedBy = true
        · rw [if_pos hm] at hacc; exact Or.inl hacc
        · rw [if_neg hm] at hacc
          by_cases hs : a.name ∈ skipRules
          · rw [if_pos hs] at hacc; exact Or.inl hacc
          · rw [if_neg hs] at hacc
            rcases List.mem_append.mp hacc with h1 | h2
            · exact Or.inl h1
            · refine Or.inr ⟨a, List.mem_cons_self _ _, ?_, hm, hs⟩
              rw [List.mem_singleton.mp h2,
                (ensure_names acc.state a.name (generate_dlq_name a.name envPrefix)
                  tagList settings busArn dryRun).1]
      · exact Or.inr ⟨r, List.mem_cons_of_mem _ hrtl, hprops⟩

/-! Claim theorems. -/

/-- C1 counterexample: the claim is false as stated.  On a bus with the
single rule `x-rule-dlq-y` (prefix `p`, no queues), the first reconcile pass
fully provisions the rule (queue created, policy updated, one target
attached), yet the same pass's orphan cleanup deletes the just-created queue
`p-x-rule-dlq-y-rule-dlq` (its name parses as an orphan of the non-existent
rule `x`), so the second pass reports the rule as `queue_created = true`
with status `"updated"` instead of zero work with status `"skipped"`,
reason `"dlq_exists"`. -/
theorem C1_counterexample :
    ((reconcile_bus cexState sampleBusArn [] sampleSettings false "p" []).1.operations.map
      (fun o => (o.queue_created, o.policy_updated, o.targets_updated, o.status, o.reason))
      = [(true, true, 1, "updated", "")]) ∧
    ((reconcile_bus cexState sampleBusArn [] sampleSettings false "p" []).2.queues = []) ∧
    ((reconcile_bus (reconcile_bus cexState sampleBusArn [] sampleSettings false "p" []).2
        sampleBusArn [] sampleSettings false "p" []).1.operations.map
      (fun o => (o.rule_name, o.queue_created, o.status, o.reason))
      = [("x-rule-dlq-y", true, "updated", "")]) := by
  exact ⟨by decide, by decide, by decide⟩

/-- C1 (amended): reconciliation is idempotent for every fully provisioned
rule whose derived DLQ queue still exists when the second pass begins — the
first pass's own orphan cleanup can delete the queue when its name parses as
an orphan (for example when the rule name itself contains consecutive
rule,dlq hyphen segments).  Under that survival hypothesis the second pass
reports, for every operation belonging to that rule, zero queues created,
zero policies updated, zero targets attached, status "skipped" and reason
"dlq_exists" — and it does report an operation for that rule. -/
theorem C1_amended (s : AwsState) (busArn : String) (tagList : List (String × String))
    (settings : Settings) (envPrefix : String) (skipRules : List String) (op1 : RuleOp)
    (h1 : op1 ∈ (reconcile_bus s busArn tagList settings false envPrefix
      skipRules).1.operations)
    (hfp : FullyProvisioned op1)
    (hsurv : (findQueue (reconcile_bus s busArn tagList settings false envPrefix skipRules).2
      op1.dlq_name).isSome = true) :
    (∃ op2 ∈ (reconcile_bus (reconcile_bus s busArn tagList settings false envPrefix
        skipRules).2 busArn tagList settings false envPrefix skipRules).1.operations,
      op2.rule_name = op1.rule_name) ∧
    (∀ op2 ∈ (reconcile_bus (reconcile_bus s busArn tagList settings false envPrefix
        skipRules).2 busArn tagList settings false envPrefix skipRules).1.operations,
      op2.rule_name = op1.rule_name → SkipGood op2) := by
  have hinvFold : ∀ op ∈ (s.rules.foldl
      (reconcileStep busArn tagList settings false envPrefix skipRules)
      { state := s, created := 0, policies := 0, attached := 0, skipped := 0,
        operations := [] }).operations,
      FullyProvisioned op →
      AttachedInv (s.rules.foldl
        (reconcileStep busArn tagList settings false envPrefix skipRules)
        { state := s, created := 0, policies := 0, attached := 0, skipped := 0,
          operations := [] }).state op.rule_name op.dlq_name := by
    apply foldl_rec _ (fun b : PassAcc => ∀ op ∈ b.operations, FullyProvisioned op →
      AttachedInv b.state op.rule_name op.dlq_name)
    · intro b a _ hb
      exact passInv_step busArn tagList settings envPrefix skipRules b a hb
    · intro op hop
      simp at hop
  have hbase := hinvFold op1 h1 hfp
  have hinv1 : AttachedInv (reconcile_bus s busArn tagList settings false envPrefix
      skipRules).2 op1.rule_name op1.dlq_name := by
    constructor
    · rw [list_targets_of_rules_eq
        (reconcile_bus s busArn tagList settings false envPrefix skipRules).2 _
        (cleanup_rules_eq _ s.rules false) op1.rule_name]
      exact hbase.1
    · exact hsurv
  have hfold2 : AttachedInv ((reconcile_bus s busArn tagList settings false envPrefix
        skipRules).2.rules.foldl
        (reconcileStep busArn tagList settings false envPrefix skipRules)
        { state := (reconcile_bus s busArn tagList settings false envPrefix skipRules).2,
          created := 0, policies := 0, attached := 0, skipped := 0,
          operations := [] }).state op1.rule_name op1.dlq_name ∧
      ∀ op ∈ ((reconcile_bus s busArn tagList settings false envPrefix
        skipRules).2.rules.foldl
        (reconcileStep busArn tagList settings false envPrefix skipRules)
        { state := (reconcile_bus s busArn tagList settings false envPrefix skipRules).2,
          created := 0, policies := 0, attached := 0, skipped := 0,
          operations := [] }).operations,
        op.rule_name = op1.rule_name → SkipGood op := by
    apply foldl_rec _ (fun b : PassAcc => AttachedInv b.state op1.rule_name op1.dlq_name ∧
      ∀ op ∈ b.operations, op.rule_name = op1.rule_name → SkipGood op)
    · intro b a _ hb
      exact pass2_step busArn tagList settings envPrefix skipRules op1.rule_name op1.dlq_name
        hfp.2.2.2 b a hb.1 hb.2
    · refine ⟨hinv1, ?_⟩
      intro op hop
      simp at hop
  constructor
  · rcases fold_ops_provenance busArn tagList settings false envPrefix skipRules s.rules
        { state := s, created := 0, policies := 0, attached := 0, skipped := 0,
          operations := [] } op1 h1 with habs | ⟨r, hrs, hname, hm, hsk⟩
    · simp at habs
    · have hsigF : ((s.rules.foldl
          (reconcileStep busArn tagList settings false envPrefix skipRules)
          { state := s, created := 0, policies := 0, attached := 0, skipped := 0,
            operations := [] }).state.rules.map (fun r => (r.name, r.managedBy)))
          = s.rules.map (fun r => (r.name, r.managedBy)) := by
        apply foldl_rec _ (fun b : PassAcc =>
          b.state.rules.map (fun r => (r.name, r.managedBy))
            = s.rules.map (fun r => (r.name, r.managedBy)))
        · intro b a _ hb
          rw [rules_sig_step busArn tagList settings false envPrefix skipRules b a]
          exact hb
        · rfl
      have hsig : (reconcile_bus s busArn tagList settings false envPrefix
          skipRules).2.rules.map (fun r => (r.name, r.managedBy))
          = s.rules.map (fun r => (r.name, r.managedBy)) := by
        have hre : (reconcile_bus s busArn tagList settings false envPrefix skipRules).2
            = (cleanup_orphaned_dlqs (List.foldl
                (reconcileStep busArn tagList settings false envPrefix skipRules)
                { state := s, created := 0, policies := 0, attached := 0, skipped := 0,
                  operations := [] } s.rules).state s.rules false).2 := rfl
        rw [hre, cleanup_rules_eq _ s.rules false]
        exact hsigF
      have hmem : (r.name, r.managedBy) ∈ (reconcile_bus s busArn tagList settings false
          envPrefix skipRules).2.rules.map (fun r => (r.name, r.managedBy)) := by
        rw [hsig]
        exact List.mem_map.mpr ⟨r, hrs, rfl⟩
      obtain ⟨r', hr's, hr'eq⟩ := List.mem_map.mp hmem
      have hn' : r'.name = r.name := congrArg Prod.fst hr'eq
      have hmB : r'.managedBy = r.managedBy := congrArg Prod.snd hr'eq
      obtain ⟨op2, hop2, hop2n, _⟩ := fold_emits busArn tagList settings false envPrefix
        skipRules (reconcile_bus s busArn tagList settings false envPrefix skipRules).2.rules
        { state := (reconcile_bus s busArn tagList settings false envPrefix skipRules).2,
          created := 0, policies := 0, attached := 0, skipped := 0, operations := [] }
        r' hr's (by rw [hmB]; exact hm) (by rw [hn']; exact hsk)
      exact ⟨op2, hop2, by rw [hop2n, hn', ← hname]⟩
  · intro op2 hop2 hn
    exact hfold2.2 op2 hop2 hn

/-- C1 witness: the healthy scenario — rule `orders`, prefix `prod` — where
the first pass fully provisions and the queue survives; the second pass's
single operation for `orders` is skipped with reason dlq_exists. -/
theorem C1_amended_witness :
    (∃ op2 ∈ (reconcile_bus (reconcile_bus ordersState sampleBusArn [] sampleSettings false
        "prod" []).2 sampleBusArn [] sampleSettings false "prod" []).1.operations,
      op2.rule_name = "orders") ∧
    (∀ op2 ∈ (reconcile_bus (reconcile_bus ordersState sampleBusArn [] sampleSettings false
        "prod" []).2 sampleBusArn [] sampleSettings false "prod" []).1.operations,
      op2.rule_name = "orders" → SkipGood op2) :=
  C1_amended ordersState sampleBusArn [] sampleSettings "prod" []
    { rule_name := "orders", dlq_name := "prod-orders-rule-dlq", queue_created := true,
      policy_updated := true, targets_updated := 1, status := "updated", reason := "" }
    (by decide) ⟨by decide, by decide, by decide, by decide⟩ (by decide)

/-- The Bool triple test agrees with equality of triples against the desired
statement's triple. -/
theorem statementMatches_iff (st : Statement) (ruleArn : String) :
    statementMatches st ruleArn = true ↔
    tripleOf st = (some "events.amazonaws.com", some "sqs:SendMessage", some ruleArn) := by
  unfold statementMatches tripleOf
  simp [Prod.ext_iff, and_assoc]

/-- The desired statement carries exactly the checked triple. -/
theorem tripleOf_desired (qa ra : String) :
    tripleOf (desiredStatement qa ra)
      = (some "events.amazonaws.com", some "sqs:SendMessage", some ra) := rfl

/-- A policy-merge call either leaves the state alone or appends the desired
statement to the found queue's policy when no statement matched. -/
theorem update_policy_cases (s : AwsState) (u a r : String) :
    (update_queue_policy s u a r).2 = s ∨
    ∃ q0, findQueue s u = some q0 ∧
      (q0.policy.any fun st => statementMatches st r) = false ∧
      (update_queue_policy s u a r).2
        = setQueuePolicy s u (q0.policy ++ [desiredStatement a r]) := by
  unfold update_queue_policy
  cases hf : findQueue s u with
  | none => exact Or.inl rfl
  | some q0 =>
      by_cases hp : (q0.policy.any fun st => statementMatches st r) = true
      · left
        simp [hp]
      · right
        exact ⟨q0, rfl, by simpa using hp, by simp [hp]⟩

/-- One policy-merge call keeps every queue's policy free of duplicate
triples. -/
theorem noDup_update_step (s : AwsState) (u a r : String)
    (h : ∀ q ∈ s.queues, NoDupTriples q.policy) :
    ∀ q ∈ (update_queue_policy s u a r).2.queues, NoDupTriples q.policy := by
  rcases update_policy_cases s u a r with heq | ⟨q0, hf, hp, heq⟩
  · rw [heq]
    exact h
  · rw [heq]
    have hq0 : q0 ∈ s.queues := List.mem_of_find?_eq_some hf
    have hnodup := h q0 hq0
    have hnomatch : ∀ st ∈ q0.policy, ¬ statementMatches st r = true :=
      fun st hst => by simpa using List.any_eq_false.mp hp st hst
    intro q hq
    simp only [setQueuePolicy, List.mem_map] at hq
    obtain ⟨orig, horig, hfq⟩ := hq
    by_cases hname : (orig.name == u) = true
    · rw [← hfq, if_pos hname]
      show NoDupTriples (q0.policy ++ [desiredStatement a r])
      rw [NoDupTriples, List.pairwise_append]
      refine ⟨hnodup, List.pairwise_singleton _ _, ?_⟩
      intro x hx y hy
      rw [List.mem_singleton.mp hy]
      intro heq2
      exact hnomatch x hx ((statementMatches_iff x r).mpr (by rw [heq2, tripleOf_desired]))
    · rw [← hfq, if_neg hname]
      exact h orig horig

/-- Any number of repeated policy-merge calls keeps every queue's policy free
of duplicate triples. -/
theorem noDup_iterPolicy (s : AwsState) (u a r : String) (n : Nat)
    (h : ∀ q ∈ s.queues, NoDupTriples q.policy) :
    ∀ q ∈ (iterPolicy s u a r n).queues, NoDupTriples q.policy := by
  induction n generalizing s with
  | zero => exact h
  | succ m ih => exact ih _ (noDup_update_step s u a r h)

/-- A matching statement makes the merge a pure no-op. -/
theorem update_policy_noop (s : AwsState) (u a r : String) (q : Queue)
    (hf : findQueue s u = some q)
    (hp : (q.policy.any fun st => statementMatches st r) = true) :
    update_queue_policy s u a r = (false, s) := by
  unfold update_queue_policy
  rw [hf]
  simp [hp]

/-- C2 counterexample: the claim is false as stated for an arbitrary starting
policy document.  A queue whose policy already holds two identical statements
keeps both duplicates after a repeated-merge call (which correctly returns
false and writes nothing), so the policy does contain two statements with the
same (principal, action, source-ARN condition) triple. -/
theorem C2_counterexample :
    (update_queue_policy dupPolicyState "q1" (mkQueueArn "q1") sampleRuleArn
      = (false, dupPolicyState)) ∧
    (∃ q ∈ (iterPolicy dupPolicyState "q1" (mkQueueArn "q1") sampleRuleArn 1).queues,
      ¬ NoDupTriples q.policy) := by
  refine ⟨by decide, ?_⟩
  refine ⟨{ name := "q1"
            attributes := []
            tags := []
            policy := [desiredStatement (mkQueueArn "q1") sampleRuleArn,
                       desiredStatement (mkQueueArn "q1") sampleRuleArn]
            visibleMsgs := 0
            inflightMsgs := 0 }, by decide, ?_⟩
  intro hnd
  rw [NoDupTriples] at hnd
  exact (List.pairwise_cons.mp hnd).1 _ (List.mem_singleton.mpr rfl) rfl

/-- C2 (amended): the merger never introduces duplicates — starting from any
state whose queue policies are free of duplicate (principal, action,
source-ARN condition) triples, any number of repeated ensureAuthorized calls
with the same rule ARN leaves every policy free of duplicate triples; and
when a matching statement already exists the call returns false and performs
no write (the state, including the call trace, is returned unchanged). -/
theorem C2_amended (s : AwsState) (queueUrl queueArn ruleArn : String) (n : Nat)
    (h : ∀ q ∈ s.queues, NoDupTriples q.policy) :
    (∀ q ∈ (iterPolicy s queueUrl queueArn ruleArn n).queues, NoDupTriples q.policy) ∧
    (∀ q, findQueue s queueUrl = some q →
      (q.policy.any fun st => statementMatches st ruleArn) = true →
      update_queue_policy s queueUrl queueArn ruleArn = (false, s)) :=
  ⟨noDup_iterPolicy s queueUrl queueArn ruleArn n h,
   fun q hf hp => update_policy_noop s queueUrl queueArn ruleArn q hf hp⟩

/-- C2 witness: three repeated calls on an initially empty policy keep it
duplicate-free. -/
theorem C2_amended_witness :
    (∀ q ∈ (iterPolicy cleanPolicyState "q1" (mkQueueArn "q1") sampleRuleArn 3).queues,
      NoDupTriples q.policy) ∧
    (∀ q, findQueue cleanPolicyState "q1" = some q →
      (q.policy.any fun st => statementMatches st sampleRuleArn) = true →
      update_queue_policy cleanPolicyState "q1" (mkQueueArn "q1") sampleRuleArn
        = (false, cleanPolicyState)) :=
  C2_amended cleanPolicyState "q1" (mkQueueArn "q1") sampleRuleArn 3
    (by intro q hq; rw [List.mem_singleton.mp hq]; exact List.Pairwise.nil)

/-- C3 (code bug): the naming round-trip fails on every standard derived
name.  For rule `orders` and prefix `prod` the derived queue name is
`prod-orders-rule-dlq`, but the orphan detector's name parsing returns none
(its suffix scan inspects token positions 0..n-3 only and never sees the
terminal rule,dlq pair), and orphan cleanup on an account holding exactly
that queue with no live rules reports nothing — the spec says recovery
returns `orders` and the queue would be reported as orphaned. -/
theorem C3_code_bug :
    generate_dlq_name "orders" "prod" = "prod-orders-rule-dlq" ∧
    parseDlqName "prod-orders-rule-dlq" = none ∧
    (cleanup_orphaned_dlqs standardQueueState [] false).1
      = { orphaned_queues := [], deleted_count := 0 } :=
  ⟨by decide, by decide, by decide⟩

/-- C4 (code bug): the 80-character bound fails for prefixes longer than 70
characters.  With a 75-character prefix the available rule-name length
`80 - 76 - 9` is negative, the Python slice `rule_name[:-5]` keeps all but
the last five characters, and the result is 90 characters long. -/
theorem C4_code_bug :
    (generate_dlq_name "0123456789" (String.mk (List.replicate 75 'a'))).length = 90 ∧
    80 < (generate_dlq_name "0123456789" (String.mk (List.replicate 75 'a'))).length :=
  ⟨by decide, by decide⟩

/-- C7 counterexample: the claim is false as stated — a target field outside
the fixed allow-list is dropped by the rewrite.  A target carrying
`SageMakerPipelineParameters` is republished by the attacher (one target
updated) without that field. -/
theorem C7_counterexample :
    (attach_dlq_to_targets sageState "orders" (mkQueueArn "d")).1 = 1 ∧
    (("SageMakerPipelineParameters", "pipe") ∈ sageTarget.extra) ∧
    (∀ rl ∈ (attach_dlq_to_targets sageState "orders" (mkQueueArn "d")).2.rules,
      ∀ t ∈ rl.targets, ("SageMakerPipelineParameters", "pipe") ∉ t.extra) :=
  ⟨by decide, by decide, by decide⟩

/-- C7 (amended): both rewrites (the attacher's clone and the teardown
detach clone) preserve the target's Id, Arn and exactly the fields on the
fixed allow-list (RoleArn, Input, InputPath, InputTransformer, the
per-destination parameter blocks, RetryPolicy), set or remove the
dead-letter field, and invent nothing; fields outside the allow-list are
dropped rather than preserved. -/
theorem C7_amended (t : Target) (queueArn : String) :
    ((cloneWithDlq t queueArn).tid = t.tid ∧ (cloneWithDlq t queueArn).arn = t.arn ∧
     (cloneWithDlq t queueArn).deadLetter = some queueArn ∧
     (∀ kv ∈ t.extra, kv.1 ∈ allowedTargetKeys → kv ∈ (cloneWithDlq t queueArn).extra) ∧
     (∀ kv ∈ (cloneWithDlq t queueArn).extra, kv ∈ t.extra ∧ kv.1 ∈ allowedTargetKeys)) ∧
    ((cloneWithoutDlq t).tid = t.tid ∧ (cloneWithoutDlq t).arn = t.arn ∧
     (cloneWithoutDlq t).deadLetter = none ∧
     (∀ kv ∈ t.extra, kv.1 ∈ allowedTargetKeys → kv ∈ (cloneWithoutDlq t).extra) ∧
     (∀ kv ∈ (cloneWithoutDlq t).extra, kv ∈ t.extra ∧ kv.1 ∈ allowedTargetKeys)) := by
  refine ⟨⟨rfl, rfl, rfl, ?_, ?_⟩, ⟨rfl, rfl, rfl, ?_, ?_⟩⟩ <;>
    first
    | (intro kv hkv hal
       exact List.mem_filter.mpr ⟨hkv, by simpa using hal⟩)
    | (intro kv hkv
       have hm := List.mem_filter.mp hkv
       exact ⟨hm.1, by simpa using hm.2⟩)

/-- C7 witness: the amended preservation at the SageMaker-carrying target. -/
theorem C7_amended_witness :
    ((cloneWithDlq sageTarget (mkQueueArn "d")).tid = sageTarget.tid ∧
     (cloneWithDlq sageTarget (mkQueueArn "d")).arn = sageTarget.arn ∧
     (cloneWithDlq sageTarget (mkQueueArn "d")).deadLetter = some (mkQueueArn "d") ∧
     (∀ kv ∈ sageTarget.extra, kv.1 ∈ allowedTargetKeys →
        kv ∈ (cloneWithDlq sageTarget (mkQueueArn "d")).extra) ∧
     (∀ kv ∈ (cloneWithDlq sageTarget (mkQueueArn "d")).extra,
        kv ∈ sageTarget.extra ∧ kv.1 ∈ allowedTargetKeys)) ∧
    ((cloneWithoutDlq sageTarget).tid = sageTarget.tid ∧
     (cloneWithoutDlq sageTarget).arn = sageTarget.arn ∧
     (cloneWithoutDlq sageTarget).deadLetter = none ∧
     (∀ kv ∈ sageTarget.extra, kv.1 ∈ allowedTargetKeys →
        kv ∈ (cloneWithoutDlq sageTarget).extra) ∧
     (∀ kv ∈ (cloneWithoutDlq sageTarget).extra,
        kv ∈ sageTarget.extra ∧ kv.1 ∈ allowedTargetKeys)) :=
  C7_amended sageTarget (mkQueueArn "d")

/-- C8: the dry-run contract holds — with dryRun the pass returns the state
(and hence the collaborator-call trace) completely unchanged, so no queue
create, policy write, target update, queue list or queue delete is
attempted; the orphan-cleanup result is empty with zero deletions; and every
recorded per-rule operation has status would_create. -/
theorem C8_dry_run (s : AwsState) (busArn : String) (tagList : List (String × String))
    (settings : Settings) (envPrefix : String) (skipRules : List String) :
    (reconcile_bus s busArn tagList settings true envPrefix skipRules).2 = s ∧
    (reconcile_bus s busArn tagList settings true envPrefix skipRules).2.trace = s.trace ∧
    (reconcile_bus s busArn tagList settings true envPrefix skipRules).1.orphaned_cleanup
      = { orphaned_queues := [], deleted_count := 0 } ∧
    ∀ op ∈ (reconcile_bus s busArn tagList settings true envPrefix skipRules).1.operations,
      op.status = "would_create" ∧ op.reason = "" := by
  have hfold : (s.rules.foldl (reconcileStep busArn tagList settings true envPrefix skipRules)
      { state := s, created := 0, policies := 0, attached := 0, skipped := 0,
        operations := [] }).state = s ∧
      ∀ op ∈ (s.rules.foldl (reconcileStep busArn tagList settings true envPrefix skipRules)
        { state := s, created := 0, policies := 0, attached := 0, skipped := 0,
          operations := [] }).operations,
        op.status = "would_create" ∧ op.reason = "" := by
    apply foldl_rec _ (fun b : PassAcc => b.state = s ∧
      ∀ op ∈ b.operations, op.status = "would_create" ∧ op.reason = "")
    · intro b a _ hb
      unfold reconcileStep
      by_cases hm : isAwsManaged a.managedBy = true
      · rw [if_pos hm]
        exact hb
      · rw [if_neg hm]
        by_cases hs : a.name ∈ skipRules
        · rw [if_pos hs]
          exact hb
        · rw [if_neg hs]
          constructor
          · show (ensure_queue_and_policy b.state a.name
                (generate_dlq_name a.name envPrefix) tagList settings busArn true).2 = s
            rw [ensure_dry]
            exact hb.1
          · intro op hop
            rcases List.mem_append.mp hop with hold | hnew
            · exact hb.2 op hold
            · have hop2 : op = (ensure_queue_and_policy b.state a.name
                  (generate_dlq_name a.name envPrefix) tagList settings busArn true).1 :=
                List.mem_singleton.mp hnew
              rw [hop2, ensure_dry]
              exact ⟨rfl, rfl⟩
    · exact ⟨rfl, fun op hop => by simp at hop⟩
  have h2 : (reconcile_bus s busArn tagList settings true envPrefix skipRules).2 = s :=
    hfold.1
  exact ⟨h2, by rw [h2], rfl, hfold.2⟩

/-- C8 witness: the dry-run contract at a concrete populated state. -/
theorem C8_dry_run_witness :
    (reconcile_bus busyState sampleBusArn [] sampleSettings true "prod" []).2 = busyState ∧
    (reconcile_bus busyState sampleBusArn [] sampleSettings true "prod" []).2.trace
      = busyState.trace ∧
    (reconcile_bus busyState sampleBusArn [] sampleSettings true "prod"
      []).1.orphaned_cleanup = { orphaned_queues := [], deleted_count := 0 } ∧
    ∀ op ∈ (reconcile_bus busyState sampleBusArn [] sampleSettings true "prod"
      []).1.operations, op.status = "would_create" ∧ op.reason = "" :=
  C8_dry_run busyState sampleBusArn [] sampleSettings "prod" []

/-! Lemmas about orphan cleanup. -/

/-- Entries listed by `list_all_dlq_queues` carry their queue's name together
with the name's parse result, and their queue exists. -/
theorem mem_list_all_dlq_queues (s : AwsState) (e : DlqEntry)
    (he : e ∈ list_all_dlq_queues s) :
    parseDlqName e.name = some e.rule_name ∧ ∃ q ∈ s.queues, q.name = e.name := by
  obtain ⟨q, hq, hpq⟩ := List.mem_filterMap.mp he
  unfold dlqEntryOfQueue at hpq
  cases hp : parseDlqName q.name with
  | none =>
      rw [hp] at hpq
      simp at hpq
  | some rn =>
      rw [hp] at hpq
      simp only [Option.map_some'] at hpq
      injection hpq with hpq
      rw [← hpq]
      exact ⟨hp, ⟨q, hq, rfl⟩⟩

/-- Every orphan-report entry stems from a listed DLQ entry whose extracted
rule name is not live. -/
theorem orphan_provenance (s : AwsState) (rules : List Rule) (dryRun : Bool) :
    ∀ o ∈ (cleanup_orphaned_dlqs s rules dryRun).1.orphaned_queues,
      ∃ e ∈ list_all_dlq_queues s, o.queue_name = e.name ∧ o.rule_name = e.rule_name ∧
        e.rule_name ∉ liveRuleNames rules := by
  cases dryRun with
  | true =>
      intro o ho
      simp [cleanup_orphaned_dlqs] at ho
  | false =>
      show ∀ o ∈ ((list_all_dlq_queues s).foldl (orphanStep (liveRuleNames rules))
        ({ orphaned_queues := [], deleted_count := 0 },
         { s with trace := s.trace ++ [TraceCall.listQueues] })).1.orphaned_queues, _
      apply foldl_rec _ (fun acc : CleanupResult × AwsState =>
        ∀ o ∈ acc.1.orphaned_queues,
          ∃ e ∈ list_all_dlq_queues s, o.queue_name = e.name ∧ o.rule_name = e.rule_name ∧
            e.rule_name ∉ liveRuleNames rules)
      · intro b a ha hb
        unfold orphanStep
        by_cases hlive : a.rule_name ∈ liveRuleNames rules
        · rw [if_pos hlive]
          exact hb
        · rw [if_neg hlive]
          intro o ho
          rcases List.mem_append.mp ho with hold | hnew
          · exact hb o hold
          · rw [List.mem_singleton.mp hnew]
            exact ⟨a, ha, rfl, rfl, hlive⟩
      · intro o ho
        simp at ho

/-- Deleting a queue of a different name preserves lookup results. -/
theorem find?_filter_of_ne (l : List Queue) (d m : String) (hne : d ≠ m) :
    (l.filter (fun q => q.name != d)).find? (fun q => q.name == m)
      = l.find? (fun q => q.name == m) := by
  induction l with
  | nil => rfl
  | cons x tl ih =>
      rw [List.filter_cons]
      by_cases hd : (x.name != d) = true
      · rw [if_pos hd]
        by_cases hx : (x.name == m) = true
        · rw [@List.find?_cons_of_pos Queue (fun q => q.name == m) x
            (tl.filter (fun q => q.name != d)) hx,
            @List.find?_cons_of_pos Queue (fun q => q.name == m) x tl hx]
        · rw [@List.find?_cons_of_neg Queue (fun q => q.name == m) x
            (tl.filter (fun q => q.name != d)) hx,
            @List.find?_cons_of_neg Queue (fun q => q.name == m) x tl hx]
          exact ih
      · rw [if_neg hd]
        have hxd : x.name = d := by simpa using hd
        have hx : ¬ (x.name == m) = true := by
          simp [hxd]
          exact hne
        rw [@List.find?_cons_of_neg Queue (fun q => q.name == m) x tl hx]
        exact ih

/-- Non-dry orphan cleanup preserves the lookup result of any queue whose
name is not that of a non-live listed entry. -/
theorem cleanup_preserves_findQueue (s : AwsState) (rules : List Rule)
    (name : String)
    (hsafe : ∀ e ∈ list_all_dlq_queues s, e.rule_name ∉ liveRuleNames rules →
      e.name ≠ name) :
    findQueue (cleanup_orphaned_dlqs s rules false).2 name = findQueue s name := by
  show findQueue ((list_all_dlq_queues s).foldl (orphanStep (liveRuleNames rules))
    ({ orphaned_queues := [], deleted_count := 0 },
     { s with trace := s.trace ++ [TraceCall.listQueues] })).2 name = findQueue s name
  apply foldl_rec _ (fun acc : CleanupResult × AwsState =>
    findQueue acc.2 name = findQueue s name)
  · intro b a ha hb
    unfold orphanStep
    by_cases hlive : a.rule_name ∈ liveRuleNames rules
    · rw [if_pos hlive]
      exact hb
    · rw [if_neg hlive]
      have hne : a.name ≠ name := hsafe a ha hlive
      show findQueue (delete_queue b.2 a.name).2 name = _
      unfold delete_queue
      by_cases hfail : a.name ∈ b.2.failingDeletes
      · rw [if_pos hfail]
        exact hb
      · rw [if_neg hfail]
        show findQueue _ name = _
        unfold findQueue at hb ⊢
        rw [find?_filter_of_ne b.2.queues a.name name hne]
        exact hb
  · rfl

/-- Non-dry orphan cleanup extends the trace with the queue listing and
delete calls only for non-live listed entries. -/
theorem cleanup_no_delete_call (s : AwsState) (rules : List Rule) (name : String)
    (hsafe : ∀ e ∈ list_all_dlq_queues s, e.rule_name ∉ liveRuleNames rules →
      e.name ≠ name) :
    ∃ extra, (cleanup_orphaned_dlqs s rules false).2.trace
      = s.trace ++ TraceCall.listQueues :: extra ∧
      TraceCall.deleteQueue name ∉ extra := by
  show ∃ extra, ((list_all_dlq_queues s).foldl (orphanStep (liveRuleNames rules))
    ({ orphaned_queues := [], deleted_count := 0 },
     { s with trace := s.trace ++ [TraceCall.listQueues] })).2.trace
      = s.trace ++ TraceCall.listQueues :: extra ∧ TraceCall.deleteQueue name ∉ extra
  apply foldl_rec _ (fun acc : CleanupResult × AwsState =>
    ∃ extra, acc.2.trace = s.trace ++ TraceCall.listQueues :: extra ∧
      TraceCall.deleteQueue name ∉ extra)
  · intro b a ha hb
    obtain ⟨extra, htr, hnot⟩ := hb
    unfold orphanStep
    by_cases hlive : a.rule_name ∈ liveRuleNames rules
    · rw [if_pos hlive]
      exact ⟨extra, htr, hnot⟩
    · rw [if_neg hlive]
      have hne : a.name ≠ name := hsafe a ha hlive
      have hmem : TraceCall.deleteQueue name ∉ extra ++ [TraceCall.deleteQueue a.name] := by
        intro hmm
        rcases List.mem_append.mp hmm with h1 | h2
        · exact hnot h1
        · have := List.mem_singleton.mp h2
          injection this with hcn
          exact hne hcn.symm
      refine ⟨extra ++ [TraceCall.deleteQueue a.name], ?_, hmem⟩
      show (delete_queue b.2 a.name).2.trace = _
      have hdtr : (delete_queue b.2 a.name).2.trace
          = b.2.trace ++ [TraceCall.deleteQueue a.name] := by
        unfold delete_queue
        split
        · rfl
        · rfl
      rw [hdtr, htr, List.append_assoc]
      rfl
  · exact ⟨[], rfl, by simp⟩

/-- C5: orphan cleanup never deletes a queue whose recovered rule name is
live.  For every listed entry whose extracted rule name is among the live
non-managed rule names: it is not recorded as orphaned, its queue's lookup is
unchanged by the pass, and no delete call for it is issued (the new trace
consists of the queue listing and delete calls for other queues only). -/
theorem C5_no_live_delete (s : AwsState) (rules : List Rule) (e : DlqEntry)
    (he : e ∈ list_all_dlq_queues s) (hlive : e.rule_name ∈ liveRuleNames rules) :
    (∀ o ∈ (cleanup_orphaned_dlqs s rules false).1.orphaned_queues,
      o.queue_name ≠ e.name) ∧
    (findQueue (cleanup_orphaned_dlqs s rules false).2 e.name = findQueue s e.name) ∧
    (∃ extra, (cleanup_orphaned_dlqs s rules false).2.trace
      = s.trace ++ TraceCall.listQueues :: extra ∧
      TraceCall.deleteQueue e.name ∉ extra) := by
  have hsafe : ∀ e' ∈ list_all_dlq_queues s, e'.rule_name ∉ liveRuleNames rules →
      e'.name ≠ e.name := by
    intro e' he' hnl heq
    have h1 := (mem_list_all_dlq_queues s e' he').1
    have h2 := (mem_list_all_dlq_queues s e he).1
    rw [heq, h2] at h1
    injection h1 with h1
    exact hnl (h1 ▸ hlive)
  refine ⟨?_, cleanup_preserves_findQueue s rules e.name hsafe,
    cleanup_no_delete_call s rules e.name hsafe⟩
  intro o ho
  obtain ⟨e', he', hqn, _, hnl⟩ := orphan_provenance s rules false o ho
  rw [hqn]
  exact hsafe e' he' hnl

/-- C5 witness: queue `p-x-rule-dlq-y-rule-dlq` parses to the live rule `x`
and survives cleanup untouched. -/
theorem C5_no_live_delete_witness :
    (∀ o ∈ (cleanup_orphaned_dlqs liveParseState liveParseState.rules
      false).1.orphaned_queues, o.queue_name ≠ "p-x-rule-dlq-y-rule-dlq") ∧
    (findQueue (cleanup_orphaned_dlqs liveParseState liveParseState.rules false).2
      "p-x-rule-dlq-y-rule-dlq" = findQueue liveParseState "p-x-rule-dlq-y-rule-dlq") ∧
    (∃ extra, (cleanup_orphaned_dlqs liveParseState liveParseState.rules false).2.trace
      = liveParseState.trace ++ TraceCall.listQueues :: extra ∧
      TraceCall.deleteQueue "p-x-rule-dlq-y-rule-dlq" ∉ extra) :=
  C5_no_live_delete liveParseState liveParseState.rules
    { name := "p-x-rule-dlq-y-rule-dlq", rule_name := "x" } (by decide) (by decide)

/-- C9: the suffix-scan loop inspects token positions 0..n-3 only, so a queue
name whose final two hyphen tokens are rule,dlq with no earlier consecutive
rule,dlq pair is never recognised: its parse is none, it never appears in the
queue listing's entries, orphan cleanup never records it, and its queue is
never deleted by orphan cleanup. -/
theorem C9_standard_names_unlisted (s : AwsState) (rules : List Rule) (dryRun : Bool)
    (name : String)
    (hlen : 2 ≤ (pySplit '-' name).length)
    (hrule : (pySplit '-' name).getD ((pySplit '-' name).length - 2) "" = "rule")
    (hdlq : (pySplit '-' name).getD ((pySplit '-' name).length - 1) "" = "dlq")
    (hno : ∀ i < (pySplit '-' name).length - 2,
      ¬((pySplit '-' name).getD i "" = "rule" ∧ (pySplit '-' name).getD (i + 1) "" = "dlq")) :
    parseDlqName name = none ∧
    (∀ e ∈ list_all_dlq_queues s, e.name ≠ name) ∧
    (∀ o ∈ (cleanup_orphaned_dlqs s rules dryRun).1.orphaned_queues,
      o.queue_name ≠ name) ∧
    (∀ q ∈ s.queues, q.name = name →
      findQueue (cleanup_orphaned_dlqs s rules dryRun).2 name = findQueue s name) := by
  have hfind : findRuleDlqIndex (pySplit '-' name) = none := by
    unfold findRuleDlqIndex
    rw [List.find?_eq_none]
    intro i hi hb
    obtain ⟨hb1, hb2⟩ := Bool.and_eq_true_iff.mp hb
    exact hno i (List.mem_range.mp hi) ⟨by simpa using hb1, by simpa using hb2⟩
  have hparse : parseDlqName name = none := by
    unfold parseDlqName
    split
    · split
      · simp [hfind]
      · rfl
    · rfl
  have hent : ∀ e ∈ list_all_dlq_queues s, e.name ≠ name := by
    intro e he heq
    have h1 := (mem_list_all_dlq_queues s e he).1
    rw [heq, hparse] at h1
    exact Option.noConfusion h1
  refine ⟨hparse, hent, ?_, ?_⟩
  · intro o ho
    obtain ⟨e', he', hqn, _, _⟩ := orphan_provenance s rules dryRun o ho
    rw [hqn]
    exact hent e' he'
  · intro q hq hqn
    cases dryRun with
    | true => rfl
    | false =>
        exact cleanup_preserves_findQueue s rules name
          (fun e' he' _ => hent e' he')

/-- C9 witness: the standard name `prod-orders-rule-dlq` in an account with
no rules — a genuine orphan that cleanup nevertheless never lists, reports
or deletes. -/
theorem C9_standard_names_unlisted_witness :
    parseDlqName "prod-orders-rule-dlq" = none ∧
    (∀ e ∈ list_all_dlq_queues standardQueueState, e.name ≠ "prod-orders-rule-dlq") ∧
    (∀ o ∈ (cleanup_orphaned_dlqs standardQueueState [] false).1.orphaned_queues,
      o.queue_name ≠ "prod-orders-rule-dlq") ∧
    (∀ q ∈ standardQueueState.queues, q.name = "prod-orders-rule-dlq" →
      findQueue (cleanup_orphaned_dlqs standardQueueState [] false).2
        "prod-orders-rule-dlq" = findQueue standardQueueState "prod-orders-rule-dlq") :=
  C9_standard_names_unlisted standardQueueState [] false "prod-orders-rule-dlq"
    (by decide) (by decide) (by decide) (by decide)

/-- C10: in non-dry orphan cleanup every orphan entry is recorded with action
"deleted" (it is appended before the delete call is attempted), the deletion
counter counts exactly the entries whose delete call succeeded, and when some
recorded entry's delete call failed the counter is strictly smaller than the
number of entries reading "deleted". -/
theorem C10_orphan_log (s : AwsState) (rules : List Rule) :
    (∀ o ∈ (cleanup_orphaned_dlqs s rules false).1.orphaned_queues,
      o.action = "deleted") ∧
    (cleanup_orphaned_dlqs s rules false).1.deleted_count
      = ((cleanup_orphaned_dlqs s rules false).1.orphaned_queues.filter
          (fun o => !(decide (o.queue_name ∈ s.failingDeletes)))).length ∧
    ((∃ o ∈ (cleanup_orphaned_dlqs s rules false).1.orphaned_queues,
        o.queue_name ∈ s.failingDeletes) →
      (cleanup_orphaned_dlqs s rules false).1.deleted_count
        < (cleanup_orphaned_dlqs s rules false).1.orphaned_queues.length) := by
  have hmain : (∀ o ∈ (cleanup_orphaned_dlqs s rules false).1.orphaned_queues,
      o.action = "deleted") ∧
      (cleanup_orphaned_dlqs s rules false).1.deleted_count
        = ((cleanup_orphaned_dlqs s rules false).1.orphaned_queues.filter
            (fun o => !(decide (o.queue_name ∈ s.failingDeletes)))).length := by
    have hfold : (∀ o ∈ ((list_all_dlq_queues s).foldl (orphanStep (liveRuleNames rules))
        ({ orphaned_queues := [], deleted_count := 0 },
         { s with trace := s.trace ++ [TraceCall.listQueues] })).1.orphaned_queues,
        o.action = "deleted") ∧
        ((list_all_dlq_queues s).foldl (orphanStep (liveRuleNames rules))
          ({ orphaned_queues := [], deleted_count := 0 },
           { s with trace := s.trace ++ [TraceCall.listQueues] })).1.deleted_count
          = (((list_all_dlq_queues s).foldl (orphanStep (liveRuleNames rules))
              ({ orphaned_queues := [], deleted_count := 0 },
               { s with trace := s.trace ++ [TraceCall.listQueues] })).1.orphaned_queues.filter
              (fun o => !(decide (o.queue_name ∈ s.failingDeletes)))).length ∧
        ((list_all_dlq_queues s).foldl (orphanStep (liveRuleNames rules))
          ({ orphaned_queues := [], deleted_count := 0 },
           { s with trace := s.trace ++ [TraceCall.listQueues] })).2.failingDeletes
          = s.failingDeletes := by
      apply foldl_rec _ (fun acc : CleanupResult × AwsState =>
        (∀ o ∈ acc.1.orphaned_queues, o.action = "deleted") ∧
        acc.1.deleted_count = (acc.1.orphaned_queues.filter
          (fun o => !(decide (o.queue_name ∈ s.failingDeletes)))).length ∧
        acc.2.failingDeletes = s.failingDeletes)
      · intro b a _ hb
        obtain ⟨hact, hcnt, hfd⟩ := hb
        unfold orphanStep
        by_cases hlive : a.rule_name ∈ liveRuleNames rules
        · rw [if_pos hlive]
          exact ⟨hact, hcnt, hfd⟩
        · rw [if_neg hlive]
          have hfd2 : (delete_queue b.2 a.name).2.failingDeletes = s.failingDeletes := by
            unfold delete_queue
            split
            · exact hfd
            · exact hfd
          refine ⟨?_, ?_, hfd2⟩
          · intro o ho
            rcases List.mem_append.mp ho with hold | hnew
            · exact hact o hold
            · rw [List.mem_singleton.mp hnew]
          · show (if (delete_queue b.2 a.name).1 = true then b.1.deleted_count + 1
                else b.1.deleted_count) = _
            rw [List.filter_append, List.length_append, hcnt]
            by_cases hfail : a.name ∈ b.2.failingDeletes
            · have hdel : (delete_queue b.2 a.name).1 = false := by
                simp [delete_queue, hfail]
              have hfs : a.name ∈ s.failingDeletes := hfd ▸ hfail
              rw [hdel, if_neg (by simp)]
              have hsing : (List.filter
                  (fun o => !(decide (o.queue_name ∈ s.failingDeletes)))
                  [{ queue_name := a.name, rule_name := a.rule_name,
                     action := "deleted" : OrphanEntry }]).length = 0 := by
                simp [List.filter, hfs]
              rw [hsing]
              omega
            · have hdel : (delete_queue b.2 a.name).1 = true := by
                simp [delete_queue, hfail]
              have hfs : a.name ∉ s.failingDeletes := hfd ▸ hfail
              rw [hdel, if_pos rfl]
              have hsing : (List.filter
                  (fun o => !(decide (o.queue_name ∈ s.failingDeletes)))
                  [{ queue_name := a.name, rule_name := a.rule_name,
                     action := "deleted" : OrphanEntry }]).length = 1 := by
                simp [List.filter, hfs]
              rw [hsing]
      · exact ⟨fun o ho => by simp at ho, rfl, rfl⟩
    exact ⟨hfold.1, hfold.2.1⟩
  refine ⟨hmain.1, hmain.2, ?_⟩
  intro ⟨o, ho, hfs⟩
  rw [hmain.2]
  apply List.length_filter_lt_length_iff_exists.mpr
  exact ⟨o, ho, by simp [hfs]⟩

/-- C10 witness: two orphans, the second delete raises — both entries read
"deleted" while the counter stays at one. -/
theorem C10_orphan_log_witness :
    ((cleanup_orphaned_dlqs failingOrphanState [] false).1.orphaned_queues.length = 2 ∧
     (cleanup_orphaned_dlqs failingOrphanState [] false).1.deleted_count = 1) ∧
    ((∀ o ∈ (cleanup_orphaned_dlqs failingOrphanState [] false).1.orphaned_queues,
      o.action = "deleted") ∧
    (cleanup_orphaned_dlqs failingOrphanState [] false).1.deleted_count
      = ((cleanup_orphaned_dlqs failingOrphanState [] false).1.orphaned_queues.filter
          (fun o => !(decide (o.queue_name ∈ failingOrphanState.failingDeletes)))).length ∧
    ((∃ o ∈ (cleanup_orphaned_dlqs failingOrphanState [] false).1.orphaned_queues,
        o.queue_name ∈ failingOrphanState.failingDeletes) →
      (cleanup_orphaned_dlqs failingOrphanState [] false).1.deleted_count
        < (cleanup_orphaned_dlqs failingOrphanState [] false).1.orphaned_queues.length)) :=
  ⟨⟨by decide, by decide⟩, C10_orphan_log failingOrphanState []⟩

/-! Lemmas about bulk teardown. -/

/-- A delete call appends exactly its trace entry, whether it succeeds or
raises. -/
theorem delete_queue_trace (s : AwsState) (d : String) :
    (delete_queue s d).2.trace = s.trace ++ [TraceCall.deleteQueue d] := by
  unfold delete_queue
  split
  · rfl
  · rfl

/-- Deleting one queue leaves lookups of other names unchanged. -/
theorem findQueue_delete_ne (s : AwsState) (d m : String) (hne : d ≠ m) :
    findQueue (delete_queue s d).2 m = findQueue s m := by
  unfold delete_queue
  split
  · rfl
  · show findQueue _ m = _
    unfold findQueue
    exact find?_filter_of_ne s.queues d m hne

/-- The detach-and-delete tail for one rule: lookups of other queue names
are unchanged, log entries are either inherited or carry this rule's queue
name, and the trace grows only by put-targets and this queue's delete call. -/
theorem teardownProceed_safe (envPrefix : String) (acc : TearAcc) (r : Rule)
    (name : String) (hne : generate_dlq_name r.name envPrefix ≠ name) :
    findQueue (teardownProceed envPrefix acc r).state name = findQueue acc.state name ∧
    (∀ d ∈ (teardownProceed envPrefix acc r).deleted_queues,
      d ∈ acc.deleted_queues ∨ d.dlq_name = generate_dlq_name r.name envPrefix) ∧
    (∃ newtr, (teardownProceed envPrefix acc r).state.trace = acc.state.trace ++ newtr ∧
      TraceCall.deleteQueue name ∉ newtr) := by
  have hkey : ∀ s1 : AwsState,
      findQueue s1 name = findQueue acc.state name →
      (∃ t1, s1.trace = acc.state.trace ++ t1 ∧ TraceCall.deleteQueue name ∉ t1) →
      findQueue (delete_queue s1 (generate_dlq_name r.name envPrefix)).2 name
        = findQueue acc.state name ∧
      (∃ t2, (delete_queue s1 (generate_dlq_name r.name envPrefix)).2.trace
        = acc.state.trace ++ t2 ∧ TraceCall.deleteQueue name ∉ t2) := by
    intro s1 hq1 ht1
    obtain ⟨t1, htr, hnt⟩ := ht1
    constructor
    · rw [findQueue_delete_ne _ _ _ hne]
      exact hq1
    · refine ⟨t1 ++ [TraceCall.deleteQueue (generate_dlq_name r.name envPrefix)], ?_, ?_⟩
      · rw [delete_queue_trace, htr, List.append_assoc]
      · intro hmm
        rcases List.mem_append.mp hmm with h1 | h2
        · exact hnt h1
        · have := List.mem_singleton.mp h2
          injection this with hcn
          exact hne hcn.symm
  simp only [teardownProceed]
  by_cases hemp : (((list_targets acc.state r.name).filter
      (fun t => t.deadLetter == some (mkQueueArn (generate_dlq_name r.name envPrefix)))).map
      cloneWithoutDlq).isEmpty = true
  · rw [if_pos hemp]
    have h1 := hkey acc.state rfl ⟨[], (List.append_nil _).symm, by simp⟩
    split
    · refine ⟨h1.1, ?_, h1.2⟩
      intro d hd
      rcases List.mem_append.mp hd with hold | hnew
      · exact Or.inl hold
      · exact Or.inr (by rw [List.mem_singleton.mp hnew])
    · exact ⟨h1.1, fun d hd => Or.inl hd, h1.2⟩
  · rw [if_neg hemp]
    have h1 := hkey (put_targets acc.state r.name
        (((list_targets acc.state r.name).filter
          (fun t => t.deadLetter == some (mkQueueArn (generate_dlq_name r.name envPrefix)))).map
          cloneWithoutDlq))
      (findQueue_put_targets _ _ _ _)
      ⟨[TraceCall.putTargets r.name], rfl, by simp⟩
    split
    · refine ⟨h1.1, ?_, h1.2⟩
      intro d hd
      rcases List.mem_append.mp hd with hold | hnew
      · exact Or.inl hold
      · exact Or.inr (by rw [List.mem_singleton.mp hnew])
    · exact ⟨h1.1, fun d hd => Or.inl hd, h1.2⟩

/-- One non-dry, non-forced teardown step preserves a message-bearing queue,
its absence from the delete log, and the no-delete-call trace property. -/
theorem teardownStep_guard_inv (envPrefix : String) (skipRules : List String)
    (s0trace : List TraceCall) (name : String) (q : Queue)
    (hmsg : 0 < q.visibleMsgs + q.inflightMsgs) (acc : TearAcc) (r : Rule)
    (hinv : findQueue acc.state name = some q ∧
      (∀ d ∈ acc.deleted_queues, d.dlq_name ≠ name) ∧
      ∃ extra, acc.state.trace = s0trace ++ extra ∧ TraceCall.deleteQueue name ∉ extra) :
    findQueue (teardownStep false false envPrefix skipRules acc r).state name = some q ∧
    (∀ d ∈ (teardownStep false false envPrefix skipRules acc r).deleted_queues,
      d.dlq_name ≠ name) ∧
    ∃ extra, (teardownStep false false envPrefix skipRules acc r).state.trace
      = s0trace ++ extra ∧ TraceCall.deleteQueue name ∉ extra := by
  obtain ⟨hq, hdq, hextra⟩ := hinv
  by_cases hm : isAwsManaged r.managedBy = true
  · rw [show teardownStep false false envPrefix skipRules acc r = acc from by
      unfold teardownStep; rw [if_pos hm]]
    exact ⟨hq, hdq, hextra⟩
  · by_cases hs : r.name ∈ skipRules
    · rw [show teardownStep false false envPrefix skipRules acc r = acc from by
        unfold teardownStep; rw [if_neg hm, if_pos hs]]
      exact ⟨hq, hdq, hextra⟩
    · cases hf : findQueue acc.state (generate_dlq_name r.name envPrefix) with
      | none =>
          rw [show teardownStep false false envPrefix skipRules acc r = acc from by
            simp only [teardownStep]
            rw [if_neg hm, if_neg hs, if_neg (by decide : ¬ (false = true)), hf]]
          exact ⟨hq, hdq, hextra⟩
      | some q' =>
          have hstep : teardownStep false false envPrefix skipRules acc r
              = if (!false && decide (0 < q'.visibleMsgs + q'.inflightMsgs)) = true then acc
                else teardownProceed envPrefix acc r := by
            simp only [teardownStep]
            rw [if_neg hm, if_neg hs, if_neg (by decide : ¬ (false = true)), hf]
          by_cases hname : generate_dlq_name r.name envPrefix = name
          · have hq' : q' = q := by
              rw [hname] at hf
              rw [hf] at hq
              injection hq
            rw [hstep, if_pos (by simp [hq', hmsg])]
            exact ⟨hq, hdq, hextra⟩
          · by_cases hguard : (!false && decide (0 < q'.visibleMsgs + q'.inflightMsgs)) = true
            · rw [hstep, if_pos hguard]
              exact ⟨hq, hdq, hextra⟩
            · rw [hstep, if_neg hguard]
              obtain ⟨hfq, hdel, htr⟩ := teardownProceed_safe envPrefix acc r name hname
              refine ⟨by rw [hfq]; exact hq, ?_, ?_⟩
              · intro d hd
                rcases hdel d hd with hold | hdn
                · exact hdq d hold
                · rw [hdn]
                  exact hname
              · obtain ⟨extra, hxtr, hxnot⟩ := hextra
                obtain ⟨newtr, hntr, hnnot⟩ := htr
                refine ⟨extra ++ newtr, ?_, ?_⟩
                · rw [hntr, hxtr, List.append_assoc]
                · intro hmm
                  rcases List.mem_append.mp hmm with h1 | h2
                  · exact hxnot h1
                  · exact hnnot h2

/-- C6: the delete safety guard.  In a non-dry, non-forced teardown, a queue
whose approximate visible plus in-flight message count is positive is never
deleted: its lookup is unchanged by the whole pass, no entry for it appears
in the deleted-queues log, no delete call for it is traced, and the step
that meets it returns its accumulator unchanged (the pass simply continues
with the next rule). -/
theorem C6_delete_guard (s : AwsState) (envPrefix : String) (skipRules : List String)
    (name : String) (q : Queue) (hq : findQueue s name = some q)
    (hmsg : 0 < q.visibleMsgs + q.inflightMsgs) :
    (findQueue (cleanup_all_dlqs s false false envPrefix skipRules).2 name = some q) ∧
    (∀ d ∈ (cleanup_all_dlqs s false false envPrefix skipRules).1.deleted_queues,
      d.dlq_name ≠ name) ∧
    (∃ extra, (cleanup_all_dlqs s false false envPrefix skipRules).2.trace
      = s.trace ++ extra ∧ TraceCall.deleteQueue name ∉ extra) ∧
    (∀ acc : TearAcc, ∀ r : Rule,
      findQueue acc.state (generate_dlq_name r.name envPrefix) = some q →
      teardownStep false false envPrefix skipRules acc r = acc) := by
  have hfold : findQueue (s.rules.foldl (teardownStep false false envPrefix skipRules)
        { state := s, deleted_queues := [], deleted_count := 0 }).state name = some q ∧
      (∀ d ∈ (s.rules.foldl (teardownStep false false envPrefix skipRules)
        { state := s, deleted_queues := [], deleted_count := 0 }).deleted_queues,
        d.dlq_name ≠ name) ∧
      ∃ extra, (s.rules.foldl (teardownStep false false envPrefix skipRules)
        { state := s, deleted_queues := [], deleted_count := 0 }).state.trace
        = s.trace ++ extra ∧ TraceCall.deleteQueue name ∉ extra := by
    apply foldl_rec _ (fun b : TearAcc => findQueue b.state name = some q ∧
      (∀ d ∈ b.deleted_queues, d.dlq_name ≠ name) ∧
      ∃ extra, b.state.trace = s.trace ++ extra ∧ TraceCall.deleteQueue name ∉ extra)
    · intro b a _ hb
      exact teardownStep_guard_inv envPrefix skipRules s.trace name q hmsg b a hb
    · exact ⟨hq, fun d hd => by simp at hd, ⟨[], (List.append_nil _).symm, by simp⟩⟩
  refine ⟨hfold.1, hfold.2.1, hfold.2.2, ?_⟩
  intro acc r hfr
  by_cases hm : isAwsManaged r.managedBy = true
  · unfold teardownStep
    rw [if_pos hm]
  · by_cases hs : r.name ∈ skipRules
    · unfold teardownStep
      rw [if_neg hm, if_pos hs]
    · simp only [teardownStep]
      rw [if_neg hm, if_neg hs, if_neg (by decide : ¬ (false = true)), hfr]
      simp [hmsg]

/-- C6 witness: the queue `prod-orders-rule-dlq` with three visible messages
survives a non-forced teardown of its bus untouched. -/
theorem C6_delete_guard_witness :
    (findQueue (cleanup_all_dlqs busyState false false "prod" []).2
      "prod-orders-rule-dlq" = some busyQueue) ∧
    (∀ d ∈ (cleanup_all_dlqs busyState false false "prod" []).1.deleted_queues,
      d.dlq_name ≠ "prod-orders-rule-dlq") ∧
    (∃ extra, (cleanup_all_dlqs busyState false false "prod" []).2.trace
      = busyState.trace ++ extra ∧
      TraceCall.deleteQueue "prod-orders-rule-dlq" ∉ extra) ∧
    (∀ acc : TearAcc, ∀ r : Rule,
      findQueue acc.state (generate_dlq_name r.name "prod") = some busyQueue →
      teardownStep false false "prod" [] acc r = acc) :=
  C6_delete_guard busyState "prod" [] "prod-orders-rule-dlq" busyQueue
    (by decide) (by decide)

end Dlq
